import Mathlib

/-!
# Shallow embedding of the overpass-go / rinq-go session state engine

This file embeds, in Lean 4, the parts of the repository needed to settle the
frozen claims: the identifier algebra (`ident`), the attribute model
(`attrmeta`), the local-session catalog (`src/unnamed/part_002`, package
`localsession`, and the legacy `src/src/internals/localsession/catalog.go`),
the closed-revision placeholder (`src/src/rinq/internal/revision/closed.go`),
the aggregate revision store (`src/unnamed/part_000`), the AMQP command
response (`src/src/rinqamqp/internal/commandamqp/response.go`), and the
reference-counted payload (`src/unnamed/part_003`).

Modelling conventions:
* Go `uint32`/`uint64` counters (revision numbers, message sequence numbers,
  payload reference counts) are modelled as `Nat`.  They are monotone counters
  starting at 0 that the code only ever increments by one (or resets to 0), so
  wrap-around is unreachable in any execution the claims quantify over.
* Go maps are modelled as association lists with first-match lookup; the
  well-formedness facts the Go runtime provides for free (no duplicate keys)
  are explicit predicates where a claim needs them.
* Mutex acquisition, logging and AMQP publishing are erased: the claims are
  about sequential state transitions, which we model by explicit state
  passing.  Fallible operations return `Except`.
-/

namespace Overpass

/-! ## Identifier algebra (`ident` package)

`PeerID` is a 64-bit clock plus 16-bit random component; `SessionID` adds a
`uint32` sequence; `Ref` pins a session at a revision; `MessageID` adds a
message sequence number.  Only field-wise equality matters for the claims. -/

structure PeerID where
  Clock : Nat
  Rand : Nat
deriving DecidableEq, Repr

structure SessionID where
  Peer : PeerID
  Seq : Nat
deriving DecidableEq, Repr

/-- `ident.Ref` (a.k.a. `overpass.SessionRef`): a session at a revision. -/
structure Ref where
  ID : SessionID
  Rev : Nat
deriving DecidableEq, Repr

structure MessageID where
  Ref : Ref
  Seq : Nat
deriving DecidableEq, Repr

/-- `ident.SessionID.At`: pins the session at a revision. -/
def SessionID.At (id : SessionID) (rev : Nat) : Ref :=
  { ID := id, Rev := rev }

/-- `ident.Ref.Message`: builds a message ID from a ref and a sequence. -/
def Ref.Message (r : Ref) (seq : Nat) : MessageID :=
  { Ref := r, Seq := seq }

/-! ## Attribute model (`rinq.Attr`, package `attrmeta`) -/

/-- `rinq.Attr`: key, value, frozen flag. -/
structure Attr where
  Key : String
  Value : String
  IsFrozen : Bool
deriving DecidableEq, Repr

/-- `rinq.Set(k, v)`: a non-frozen attribute. -/
def Set (k v : String) : Attr :=
  { Key := k, Value := v, IsFrozen := false }

/-- `rinq.Freeze(k, v)`: a frozen attribute. -/
def Freeze (k v : String) : Attr :=
  { Key := k, Value := v, IsFrozen := true }

namespace attrmeta

/-- `attrmeta.Attr`: an attribute with creation/update revision metadata.
The Go struct embeds `rinq.Attr`, so `entry.Value` reads through to
`entry.Attr.Value`. -/
structure Attr where
  Attr : Overpass.Attr
  CreatedAt : Nat
  UpdatedAt : Nat
deriving DecidableEq, Repr

/-- The Go zero value of `attrmeta.Attr`, produced by a map lookup on a
missing key. -/
def zeroAttr : Attr :=
  { Attr := { Key := "", Value := "", IsFrozen := false }, CreatedAt := 0, UpdatedAt := 0 }

/-- `attrmeta.Namespace` (`map[string]Attr`), modelled as an association list
with first-match lookup. -/
abbrev Namespace := List (String × Attr)

/-- Go map lookup `ns[k]` (second return value is `(mapGet ns k).isSome`). -/
def mapGet (ns : Namespace) (k : String) : Option Attr :=
  match ns with
  | [] => none
  | (k', v) :: rest => if k' = k then some v else mapGet rest k

/-- Go map assignment `ns[k] = v`: replaces the entry in place or appends. -/
def mapSet (ns : Namespace) (k : String) (v : Attr) : Namespace :=
  match ns with
  | [] => [(k, v)]
  | (k', v') :: rest => if k' = k then (k, v) :: rest else (k', v') :: mapSet rest k v

/-- `Namespace.Clone`: copies every entry into a fresh map.  On immutable
values the copy is the identity. -/
def Clone (ns : Namespace) : Namespace :=
  ns

/-- The table type used by the `part_002` catalog: the newer `attrmeta.Table`
(`map[string]Namespace`, keyed by namespace name).  Named `NsTable` here
because `src/src/rinq/internal/attrmeta/table.go` (the flat, key-keyed
generation of the type) already uses the name `Table` below. -/
abbrev NsTable := List (String × Namespace)

/-- Go map lookup `t[ns]`; a missing namespace reads as the zero value
(`nil` map, i.e. the empty namespace). -/
def tableGet (t : NsTable) (ns : String) : Namespace :=
  match t with
  | [] => []
  | (n, v) :: rest => if n = ns then v else tableGet rest ns

/-- Modelled from the spec: `attrmeta.Table.CloneAndMerge` is not under
`src/`; per its call sites in `part_002` it clones the table and installs the
given namespace under the given name. -/
def CloneAndMerge (t : NsTable) (ns : String) (n : Namespace) : NsTable :=
  match t with
  | [] => [(ns, n)]
  | (n', v') :: rest => if n' = ns then (ns, n) :: rest else (n', v') :: CloneAndMerge rest ns n

/-- Modelled from the spec: `attrmeta.Diff` is not under `src/`; per §4.2 of
the spec and its call sites in `part_002` it records the namespace, the
revision of the update, and the ordered entries appended by `Diff.Append`;
`Diff.IsEmpty` is true iff no entry was ever appended. -/
structure Diff where
  Namespace : String
  Revision : Nat
  entries : List Attr
deriving DecidableEq, Repr

/-- `attrmeta.NewDiff(ns, rev, cap)` (the capacity hint has no semantic
content). -/
def NewDiff (ns : String) (rev : Nat) : Diff :=
  { Namespace := ns, Revision := rev, entries := [] }

/-- `Diff.Append`. -/
def Diff.Append (d : Diff) (e : Attr) : Diff :=
  { d with entries := d.entries ++ [e] }

/-- `Diff.IsEmpty`. -/
def Diff.IsEmpty (d : Diff) : Bool :=
  d.entries.isEmpty

end attrmeta

/-! ## Error taxonomy (`rinq` / `overpass` packages)

The error structs themselves are not under `src/`; modelled from the spec's
wire taxonomy (§6): `NotFound{ID}`, `StaleUpdate{Ref}`,
`FrozenAttributes{Ref, Keys}`.  A Go composite literal that omits a field
leaves it at its zero value, so `rinq.FrozenAttributesError{Ref: ref}` in
`part_002` carries an empty key list. -/

inductive UErr where
  | notFound (ID : SessionID)
  | staleUpdate (Ref : Ref)
  | frozenAttributes (Ref : Ref) (Keys : List String)
deriving DecidableEq, Repr

/-- Whether an `Except` result is a success (`err == nil` in Go terms). -/
def exceptOk {ε α : Type} : Except ε α → Bool
  | .ok _ => true
  | .error _ => false

instance {ε α : Type} [DecidableEq ε] [DecidableEq α] : DecidableEq (Except ε α) :=
  fun x y =>
  match x, y with
  | .ok a, .ok b =>
    if h : a = b then isTrue (by rw [h]) else isFalse (by intro hc; cases hc; exact h rfl)
  | .ok _, .error _ => isFalse (by intro hc; cases hc)
  | .error _, .ok _ => isFalse (by intro hc; cases hc)
  | .error a, .error b =>
    if h : a = b then isTrue (by rw [h]) else isFalse (by intro hc; cases hc; exact h rfl)

/-! ## The local-session catalog (`src/unnamed/part_002`, package `localsession`)

`catalog` holds the session ref, the namespaced attribute table, the message
sequence counter and the done signal (`done` channel closed ⇒ `done = true`).
The mutex and logger carry no state relevant to the claims. -/

namespace localsession

/-- The `revision` value constructed by the catalog: the ref it is bound to
and the attribute table it carries (the back-pointer to the catalog and the
logger are erased). -/
structure revision where
  ref : Ref
  attrs : attrmeta.NsTable
deriving DecidableEq, Repr

structure Catalog where
  ref : Ref
  attrs : attrmeta.NsTable
  seq : Nat
  done : Bool
deriving DecidableEq, Repr

/-- `NewCatalog`: ref at revision 0, empty table, zero sequence, open. -/
def NewCatalog (id : SessionID) : Catalog :=
  { ref := id.At 0, attrs := [], seq := 0, done := false }

/-- `catalog.NextMessageID`: increments `seq` and returns the message ID at
the current ref together with the current table. -/
def Catalog.NextMessageID (c : Catalog) : (MessageID × attrmeta.NsTable) × Catalog :=
  let c' := { c with seq := c.seq + 1 }
  ((c'.ref.Message c'.seq, c'.attrs), c')

/-- `catalog.Head`. -/
def Catalog.Head (c : Catalog) : revision :=
  { ref := c.ref, attrs := c.attrs }

/-- `catalog.At`: fails when asked for a revision newer than the current one;
otherwise returns a revision bound to `(session ID, rev)` that carries the
catalog's current table. -/
def Catalog.At (c : Catalog) (rev : Nat) : Except String revision :=
  if c.ref.Rev < rev then
    .error "revision is from the future"
  else
    .ok { ref := c.ref.ID.At rev, attrs := c.attrs }

/-- The `for _, attr := range attrs` loop body of `catalog.TryUpdate`
(part_002 lines 167–186): skip no-ops, abort on a frozen conflict (the error
literal sets only `Ref`, leaving `Keys` at its zero value), otherwise install
the updated entry and append it to the diff. -/
def updateLoop (ref : Ref) (nextRev : Nat) :
    List Attr → attrmeta.Namespace → attrmeta.Diff →
    Except UErr (attrmeta.Namespace × attrmeta.Diff)
  | [], nextAttrs, diff => .ok (nextAttrs, diff)
  | attr :: rest, nextAttrs, diff =>
    let entry0 := attrmeta.mapGet nextAttrs attr.Key
    let entry := entry0.getD attrmeta.zeroAttr
    if attr.Value = entry.Attr.Value ∧ attr.IsFrozen = entry.Attr.IsFrozen then
      updateLoop ref nextRev rest nextAttrs diff
    else if entry.Attr.IsFrozen then
      .error (.frozenAttributes ref [])
    else
      let entry1 : attrmeta.Attr :=
        { Attr := attr
          UpdatedAt := nextRev
          CreatedAt := if entry0.isSome then entry.CreatedAt else nextRev }
      updateLoop ref nextRev rest (attrmeta.mapSet nextAttrs attr.Key entry1) (diff.Append entry1)

/-- `catalog.TryUpdate` (part_002 lines 145–201).  Returns the Go result
triple (collapsed into an `Except`) together with the catalog's state after
the call. -/
def Catalog.TryUpdate (c : Catalog) (ref : Ref) (ns : String) (attrs : List Attr) :
    Except UErr (revision × attrmeta.Diff) × Catalog :=
  if c.done then (.error (.notFound c.ref.ID), c)
  else if ref ≠ c.ref then (.error (.staleUpdate ref), c)
  else
    let nextRev := ref.Rev + 1
    match updateLoop ref nextRev attrs (attrmeta.Clone (attrmeta.tableGet c.attrs ns))
        (attrmeta.NewDiff ns nextRev) with
    | .error e => (.error e, c)
    | .ok (nextAttrs, diff) =>
      let c' : Catalog :=
        { c with
          ref := { c.ref with Rev := nextRev }
          seq := 0
          attrs := if diff.IsEmpty then c.attrs else attrmeta.CloneAndMerge c.attrs ns nextAttrs }
      (.ok ({ ref := c'.ref, attrs := c'.attrs }, diff), c')

/-- The `for _, entry := range attrs` loop body of `catalog.TryClear`
(part_002 lines 225–237): a non-empty frozen attribute aborts, a non-empty
mutable one is cleared and appended to the diff, and every entry is carried
into the rebuilt namespace keyed by its own key. -/
def clearLoop (ref : Ref) (nextRev : Nat) :
    attrmeta.Namespace → attrmeta.Namespace → attrmeta.Diff →
    Except UErr (attrmeta.Namespace × attrmeta.Diff)
  | [], nextAttrs, diff => .ok (nextAttrs, diff)
  | (_, entry) :: rest, nextAttrs, diff =>
    if entry.Attr.Value ≠ "" then
      if entry.Attr.IsFrozen then
        .error (.frozenAttributes ref [])
      else
        let entry1 : attrmeta.Attr :=
          { entry with Attr := { entry.Attr with Value := "" }, UpdatedAt := nextRev }
        clearLoop ref nextRev rest (attrmeta.mapSet nextAttrs entry1.Attr.Key entry1)
          (diff.Append entry1)
    else
      clearLoop ref nextRev rest (attrmeta.mapSet nextAttrs entry.Attr.Key entry) diff

/-- `catalog.TryClear` (part_002 lines 203–252). -/
def Catalog.TryClear (c : Catalog) (ref : Ref) (ns : String) :
    Except UErr (revision × attrmeta.Diff) × Catalog :=
  if c.done then (.error (.notFound c.ref.ID), c)
  else if ref ≠ c.ref then (.error (.staleUpdate ref), c)
  else
    let nextRev := ref.Rev + 1
    match clearLoop ref nextRev (attrmeta.tableGet c.attrs ns) []
        (attrmeta.NewDiff ns nextRev) with
    | .error e => (.error e, c)
    | .ok (nextAttrs, diff) =>
      let c' : Catalog :=
        { c with
          ref := { c.ref with Rev := nextRev }
          seq := 0
          attrs := if diff.IsEmpty then c.attrs else attrmeta.CloneAndMerge c.attrs ns nextAttrs }
      (.ok ({ ref := c'.ref, attrs := c'.attrs }, diff), c')

/-- `catalog.TryDestroy` (part_002 lines 254–269). -/
def Catalog.TryDestroy (c : Catalog) (ref : Ref) : Except UErr Unit × Catalog :=
  if ref ≠ c.ref then (.error (.staleUpdate ref), c)
  else (.ok (), { c with done := true })

/-- `catalog.Close` (part_002 lines 271–280). -/
def Catalog.Close (c : Catalog) : Catalog :=
  { c with done := true }

/-! ### Operation sequences over a catalog -/

/-- One `TryUpdate` or `TryClear` call with caller-chosen arguments. -/
inductive CatOp where
  | update (ref : Ref) (ns : String) (attrs : List Attr)
  | clear (ref : Ref) (ns : String)

/-- Apply a single `TryUpdate`/`TryClear` call. -/
def Catalog.applyOp (c : Catalog) (op : CatOp) : Except UErr (revision × attrmeta.Diff) × Catalog :=
  match op with
  | .update ref ns attrs => c.TryUpdate ref ns attrs
  | .clear ref ns => c.TryClear ref ns

/-- Run a sequence of `TryUpdate`/`TryClear` calls, returning the final state
and the number of calls that succeeded. -/
def Catalog.runOps (c : Catalog) : List CatOp → Catalog × Nat
  | [] => (c, 0)
  | op :: rest =>
    let step := c.applyOp op
    let tail := step.2.runOps rest
    (tail.1, (if exceptOk step.1 then 1 else 0) + tail.2)

/-- Any call of the catalog's lifetime that can affect or emit message IDs. -/
inductive SessOp where
  | update (ref : Ref) (ns : String) (attrs : List Attr)
  | clear (ref : Ref) (ns : String)
  | next
  | destroy (ref : Ref)
  | close

/-- Run a sequence of catalog calls, collecting the message IDs returned by
the `NextMessageID` calls in order. -/
def Catalog.runEmit (c : Catalog) : List SessOp → Catalog × List MessageID
  | [] => (c, [])
  | .next :: rest =>
    let step := c.NextMessageID
    let tail := step.2.runEmit rest
    (tail.1, step.1.1 :: tail.2)
  | .update ref ns attrs :: rest => ((c.TryUpdate ref ns attrs).2.runEmit rest)
  | .clear ref ns :: rest => ((c.TryClear ref ns).2.runEmit rest)
  | .destroy ref :: rest => ((c.TryDestroy ref).2.runEmit rest)
  | .close :: rest => (c.Close.runEmit rest)

end localsession

end Overpass

namespace Overpass

namespace localsession

/-! ## Step lemmas for the catalog -/

/-- A failed `TryUpdate` leaves the catalog untouched. -/
theorem TryUpdate_error_state (c : Catalog) (ref : Ref) (ns : String) (attrs : List Attr)
    (h : exceptOk (c.TryUpdate ref ns attrs).1 = false) :
    (c.TryUpdate ref ns attrs).2 = c := by
  by_cases hd : c.done
  · simp [Catalog.TryUpdate, hd]
  · by_cases hr : ref = c.ref
    · subst hr
      rcases hloop : updateLoop c.ref (c.ref.Rev + 1) attrs
          (attrmeta.Clone (attrmeta.tableGet c.attrs ns))
          (attrmeta.NewDiff ns (c.ref.Rev + 1)) with e | pair
      · simp [Catalog.TryUpdate, hd, hloop]
      · exfalso
        simp [Catalog.TryUpdate, hd, hloop, exceptOk] at h
    · simp [Catalog.TryUpdate, hd, hr]

/-- A successful `TryUpdate` increments the revision by exactly one, resets
the sequence counter, and preserves the session ID and done flag. -/
theorem TryUpdate_ok_state (c : Catalog) (ref : Ref) (ns : String) (attrs : List Attr)
    (h : exceptOk (c.TryUpdate ref ns attrs).1 = true) :
    (c.TryUpdate ref ns attrs).2.ref.ID = c.ref.ID ∧
    (c.TryUpdate ref ns attrs).2.ref.Rev = c.ref.Rev + 1 ∧
    (c.TryUpdate ref ns attrs).2.seq = 0 ∧
    (c.TryUpdate ref ns attrs).2.done = c.done := by
  by_cases hd : c.done
  · exfalso; simp [Catalog.TryUpdate, hd, exceptOk] at h
  · by_cases hr : ref = c.ref
    · subst hr
      rcases hloop : updateLoop c.ref (c.ref.Rev + 1) attrs
          (attrmeta.Clone (attrmeta.tableGet c.attrs ns))
          (attrmeta.NewDiff ns (c.ref.Rev + 1)) with e | pair
      · exfalso; simp [Catalog.TryUpdate, hd, hloop, exceptOk] at h
      · simp [Catalog.TryUpdate, hd, hloop]
    · exfalso; simp [Catalog.TryUpdate, hd, hr, exceptOk] at h

/-- A failed `TryClear` leaves the catalog untouched. -/
theorem TryClear_error_state (c : Catalog) (ref : Ref) (ns : String)
    (h : exceptOk (c.TryClear ref ns).1 = false) :
    (c.TryClear ref ns).2 = c := by
  by_cases hd : c.done
  · simp [Catalog.TryClear, hd]
  · by_cases hr : ref = c.ref
    · subst hr
      rcases hloop : clearLoop c.ref (c.ref.Rev + 1) (attrmeta.tableGet c.attrs ns) []
          (attrmeta.NewDiff ns (c.ref.Rev + 1)) with e | pair
      · simp [Catalog.TryClear, hd, hloop]
      · exfalso
        simp [Catalog.TryClear, hd, hloop, exceptOk] at h
    · simp [Catalog.TryClear, hd, hr]

/-- A successful `TryClear` increments the revision by exactly one, resets
the sequence counter, and preserves the session ID and done flag. -/
theorem TryClear_ok_state (c : Catalog) (ref : Ref) (ns : String)
    (h : exceptOk (c.TryClear ref ns).1 = true) :
    (c.TryClear ref ns).2.ref.ID = c.ref.ID ∧
    (c.TryClear ref ns).2.ref.Rev = c.ref.Rev + 1 ∧
    (c.TryClear ref ns).2.seq = 0 ∧
    (c.TryClear ref ns).2.done = c.done := by
  by_cases hd : c.done
  · exfalso; simp [Catalog.TryClear, hd, exceptOk] at h
  · by_cases hr : ref = c.ref
    · subst hr
      rcases hloop : clearLoop c.ref (c.ref.Rev + 1) (attrmeta.tableGet c.attrs ns) []
          (attrmeta.NewDiff ns (c.ref.Rev + 1)) with e | pair
      · exfalso; simp [Catalog.TryClear, hd, hloop, exceptOk] at h
      · simp [Catalog.TryClear, hd, hloop]
    · exfalso; simp [Catalog.TryClear, hd, hr, exceptOk] at h

/-- Step lemma for `applyOp`, success case. -/
theorem applyOp_ok_state (c : Catalog) (op : CatOp)
    (h : exceptOk (c.applyOp op).1 = true) :
    (c.applyOp op).2.ref.ID = c.ref.ID ∧
    (c.applyOp op).2.ref.Rev = c.ref.Rev + 1 ∧
    (c.applyOp op).2.seq = 0 ∧
    (c.applyOp op).2.done = c.done := by
  cases op with
  | update ref ns attrs => exact TryUpdate_ok_state c ref ns attrs h
  | clear ref ns => exact TryClear_ok_state c ref ns h

/-- Step lemma for `applyOp`, failure case. -/
theorem applyOp_error_state (c : Catalog) (op : CatOp)
    (h : exceptOk (c.applyOp op).1 = false) :
    (c.applyOp op).2 = c := by
  cases op with
  | update ref ns attrs => exact TryUpdate_error_state c ref ns attrs h
  | clear ref ns => exact TryClear_error_state c ref ns h

/-- Over any sequence of calls, the final revision is the initial revision
plus the number of successful calls. -/
theorem runOps_rev (c : Catalog) (ops : List CatOp) :
    (c.runOps ops).1.ref.Rev = c.ref.Rev + (c.runOps ops).2 := by
  induction ops generalizing c with
  | nil => simp [Catalog.runOps]
  | cons op rest ih =>
    simp only [Catalog.runOps]
    cases h : exceptOk (c.applyOp op).1 with
    | true =>
      have hs := (applyOp_ok_state c op h).2.1
      have ht := ih (c.applyOp op).2
      simp only [eq_self_iff_true, if_true]
      omega
    | false =>
      have hs := applyOp_error_state c op h
      rw [hs]
      have ht := ih c
      simp only [Bool.false_eq_true, if_false]
      omega

end localsession

/-! ## Claim C1 -/

open localsession in
/-- **C1.** For every catalog and every sequence of `TryUpdate`/`TryClear`
calls: a call that succeeds increments `Ref.Rev` by exactly 1 and resets the
message sequence counter to 0, a call that fails (with `StaleUpdate`,
`NotFound` or `FrozenAttributes` — the only failures) leaves the ref, the
attribute table and the sequence counter unchanged, and hence the final `Rev`
equals the initial `Rev` plus the number of successful calls. -/
theorem C1_rev_accounting :
    (∀ (c : Catalog) (op : CatOp),
      (exceptOk (c.applyOp op).1 = true →
        (c.applyOp op).2.ref.Rev = c.ref.Rev + 1 ∧ (c.applyOp op).2.seq = 0) ∧
      (exceptOk (c.applyOp op).1 = false → (c.applyOp op).2 = c)) ∧
    (∀ (c : Catalog) (ops : List CatOp),
      (c.runOps ops).1.ref.Rev = c.ref.Rev + (c.runOps ops).2) := by
  refine ⟨fun c op => ⟨fun h => ?_, fun h => applyOp_error_state c op h⟩,
    fun c ops => runOps_rev c ops⟩
  exact ⟨(applyOp_ok_state c op h).2.1, (applyOp_ok_state c op h).2.2.1⟩

namespace attrmeta

/-! ### Association-list map lemmas -/

theorem mapGet_mapSet_self (ns : Namespace) (k : String) (v : Attr) :
    mapGet (mapSet ns k v) k = some v := by
  induction ns with
  | nil => simp [mapSet, mapGet]
  | cons p rest ih =>
    obtain ⟨k', v'⟩ := p
    by_cases h : k' = k
    · simp [mapSet, mapGet, h]
    · simp [mapSet, mapGet, h, ih]

theorem mapGet_mapSet_ne (ns : Namespace) (k' k : String) (v : Attr) (h : k' ≠ k) :
    mapGet (mapSet ns k' v) k = mapGet ns k := by
  induction ns with
  | nil => simp [mapSet, mapGet, h]
  | cons p rest ih =>
    obtain ⟨k₁, v₁⟩ := p
    by_cases h₁ : k₁ = k'
    · subst h₁
      simp [mapSet, mapGet, h, ih]
    · simp only [mapSet, if_neg h₁]
      by_cases h₂ : k₁ = k <;> simp [mapGet, h₂, ih]

theorem mem_keys_mapSet (ns : Namespace) (k : String) (v : Attr) (x : String)
    (h : x ∈ (mapSet ns k v).map Prod.fst) : x ∈ ns.map Prod.fst ∨ x = k := by
  induction ns with
  | nil => simp [mapSet] at h; simp [h]
  | cons p rest ih =>
    obtain ⟨k₁, v₁⟩ := p
    by_cases h₁ : k₁ = k
    · subst h₁
      simp [mapSet] at h
      rcases h with h | h
      · simp [h]
      · simp [h]
    · simp only [mapSet, if_neg h₁, List.map_cons, List.mem_cons] at h
      rcases h with h | h
      · simp [h]
      · rcases ih h with h' | h'
        · exact Or.inl (by simp [h'])
        · exact Or.inr h'

theorem nodup_keys_mapSet (ns : Namespace) (k : String) (v : Attr)
    (h : (ns.map Prod.fst).Nodup) : ((mapSet ns k v).map Prod.fst).Nodup := by
  induction ns with
  | nil => simp [mapSet]
  | cons p rest ih =>
    obtain ⟨k₁, v₁⟩ := p
    simp only [List.map_cons, List.nodup_cons] at h
    by_cases h₁ : k₁ = k
    · subst h₁
      simp only [mapSet, eq_self_iff_true, if_true, List.map_cons, List.nodup_cons]
      exact h
    · simp only [mapSet, if_neg h₁, List.map_cons, List.nodup_cons]
      refine ⟨fun hmem => ?_, ih h.2⟩
      rcases mem_keys_mapSet rest k v k₁ hmem with h' | h'
      · exact h.1 h'
      · exact h₁ h'

theorem keyConsistent_mapSet (ns : Namespace) (k : String) (v : Attr)
    (hv : v.Attr.Key = k) (h : ∀ p ∈ ns, (p.2).Attr.Key = p.1) :
    ∀ p ∈ mapSet ns k v, (p.2).Attr.Key = p.1 := by
  induction ns with
  | nil =>
    intro p hp
    simp [mapSet] at hp
    simp [hp, hv]
  | cons q rest ih =>
    obtain ⟨k₁, v₁⟩ := q
    intro p hp
    by_cases h₁ : k₁ = k
    · subst h₁
      simp only [mapSet, eq_self_iff_true, if_true, List.mem_cons] at hp
      rcases hp with hp | hp
      · simp [hp, hv]
      · exact h p (List.mem_cons_of_mem _ hp)
    · simp only [mapSet, if_neg h₁, List.mem_cons] at hp
      rcases hp with hp | hp
      · exact h p (by simp [hp])
      · exact ih (fun q hq => h q (List.mem_cons_of_mem _ hq)) p hp

theorem tableGet_cloneAndMerge_self (t : NsTable) (ns : String) (x : Namespace) :
    tableGet (CloneAndMerge t ns x) ns = x := by
  induction t with
  | nil => simp [CloneAndMerge, tableGet]
  | cons p rest ih =>
    obtain ⟨n, v⟩ := p
    by_cases h : n = ns
    · simp [CloneAndMerge, tableGet, h]
    · simp [CloneAndMerge, tableGet, h, ih]

theorem tableGet_cloneAndMerge_ne (t : NsTable) (ns' ns : String) (x : Namespace)
    (h : ns' ≠ ns) : tableGet (CloneAndMerge t ns' x) ns = tableGet t ns := by
  induction t with
  | nil => simp [CloneAndMerge, tableGet, h]
  | cons p rest ih =>
    obtain ⟨n, v⟩ := p
    by_cases h₁ : n = ns'
    · subst h₁
      simp [CloneAndMerge, tableGet, h, ih]
    · simp only [CloneAndMerge, if_neg h₁]
      by_cases h₂ : n = ns <;> simp [tableGet, h₂, ih]

end attrmeta

namespace localsession

/-! ### Well-formedness of namespaces, and frozen-entry stability

A Go map can neither hold two entries under the same key nor (given the
catalog's insertion discipline, visible in both loops) an entry keyed by
anything other than its own attribute key.  These two facts are implicit in
the Go data structure and explicit here. -/

def WFNamespace (ns : attrmeta.Namespace) : Prop :=
  (∀ p ∈ ns, (p.2).Attr.Key = p.1) ∧ (ns.map Prod.fst).Nodup

instance (ns : attrmeta.Namespace) : Decidable (WFNamespace ns) :=
  inferInstanceAs (Decidable (_ ∧ _))

/-- `updateLoop` never changes a frozen entry of its accumulator: a proposed
attribute hitting it is either an exact no-op (skipped) or aborts the call. -/
theorem updateLoop_frozen (ref : Ref) (rev : Nat) (k : String) (e : attrmeta.Attr)
    (he : e.Attr.IsFrozen = true) :
    ∀ (attrs : List Attr) (acc : attrmeta.Namespace) (diff : attrmeta.Diff)
      (out : attrmeta.Namespace × attrmeta.Diff),
      updateLoop ref rev attrs acc diff = .ok out →
      attrmeta.mapGet acc k = some e →
      attrmeta.mapGet out.1 k = some e := by
  intro attrs
  induction attrs with
  | nil =>
    intro acc diff out hloop hget
    simp only [updateLoop] at hloop
    cases hloop
    exact hget
  | cons attr rest ih =>
    intro acc diff out hloop hget
    simp only [updateLoop] at hloop
    by_cases hnoop : attr.Value = ((attrmeta.mapGet acc attr.Key).getD attrmeta.zeroAttr).Attr.Value ∧
        attr.IsFrozen = ((attrmeta.mapGet acc attr.Key).getD attrmeta.zeroAttr).Attr.IsFrozen
    · rw [if_pos hnoop] at hloop
      exact ih acc diff out hloop hget
    · rw [if_neg hnoop] at hloop
      by_cases hfr : ((attrmeta.mapGet acc attr.Key).getD attrmeta.zeroAttr).Attr.IsFrozen = true
      · rw [if_pos hfr] at hloop
        cases hloop
      · rw [if_neg hfr] at hloop
        by_cases hk : attr.Key = k
        · subst hk
          rw [hget] at hfr
          simp [Option.getD] at hfr
          rw [he] at hfr
          simp at hfr
        · refine ih _ _ out hloop ?_
          rw [attrmeta.mapGet_mapSet_ne _ _ _ _ hk]
          exact hget

/-- `updateLoop` preserves namespace well-formedness. -/
theorem updateLoop_WF (ref : Ref) (rev : Nat) :
    ∀ (attrs : List Attr) (acc : attrmeta.Namespace) (diff : attrmeta.Diff)
      (out : attrmeta.Namespace × attrmeta.Diff),
      updateLoop ref rev attrs acc diff = .ok out →
      WFNamespace acc → WFNamespace out.1 := by
  intro attrs
  induction attrs with
  | nil =>
    intro acc diff out hloop hwf
    simp only [updateLoop] at hloop
    cases hloop
    exact hwf
  | cons attr rest ih =>
    intro acc diff out hloop hwf
    simp only [updateLoop] at hloop
    by_cases hnoop : attr.Value = ((attrmeta.mapGet acc attr.Key).getD attrmeta.zeroAttr).Attr.Value ∧
        attr.IsFrozen = ((attrmeta.mapGet acc attr.Key).getD attrmeta.zeroAttr).Attr.IsFrozen
    · rw [if_pos hnoop] at hloop
      exact ih acc diff out hloop hwf
    · rw [if_neg hnoop] at hloop
      by_cases hfr : ((attrmeta.mapGet acc attr.Key).getD attrmeta.zeroAttr).Attr.IsFrozen = true
      · rw [if_pos hfr] at hloop
        cases hloop
      · rw [if_neg hfr] at hloop
        refine ih _ _ out hloop ?_
        exact ⟨attrmeta.keyConsistent_mapSet _ _ _ rfl hwf.1,
          attrmeta.nodup_keys_mapSet _ _ _ hwf.2⟩

/-- While clearing, inserts for entries whose key differs from `k` do not
affect the accumulator's entry at `k`. -/
theorem clearLoop_notin (ref : Ref) (rev : Nat) (k : String) :
    ∀ (l : attrmeta.Namespace) (acc : attrmeta.Namespace) (diff : attrmeta.Diff)
      (out : attrmeta.Namespace × attrmeta.Diff),
      (∀ p ∈ l, (p.2).Attr.Key = p.1) →
      k ∉ l.map Prod.fst →
      clearLoop ref rev l acc diff = .ok out →
      attrmeta.mapGet out.1 k = attrmeta.mapGet acc k := by
  intro l
  induction l with
  | nil =>
    intro acc diff out _ _ hloop
    simp only [clearLoop] at hloop
    cases hloop
    rfl
  | cons p rest ih =>
    obtain ⟨k₁, e₁⟩ := p
    intro acc diff out hkc hnk hloop
    have hk₁ : e₁.Attr.Key = k₁ := hkc (k₁, e₁) (by simp)
    have hk₁k : k₁ ≠ k := by
      intro hcon
      exact hnk (by simp [hcon])
    have hrest : k ∉ rest.map Prod.fst := fun hmem => hnk (by simp [hmem])
    have hkcr : ∀ p ∈ rest, (p.2).Attr.Key = p.1 :=
      fun q hq => hkc q (List.mem_cons_of_mem _ hq)
    simp only [clearLoop] at hloop
    by_cases hv : e₁.Attr.Value ≠ ""
    · rw [if_pos hv] at hloop
      by_cases hfr : e₁.Attr.IsFrozen = true
      · rw [if_pos hfr] at hloop
        cases hloop
      · rw [if_neg hfr] at hloop
        rw [ih _ _ out hkcr hrest hloop]
        exact attrmeta.mapGet_mapSet_ne _ _ _ _ (by simpa [hk₁] using hk₁k)
    · rw [if_neg hv] at hloop
      rw [ih _ _ out hkcr hrest hloop]
      exact attrmeta.mapGet_mapSet_ne _ _ _ _ (by simpa [hk₁] using hk₁k)

/-- If `clearLoop` succeeds, a frozen entry of the iterated namespace lands
in the rebuilt namespace unchanged (a frozen entry with a non-empty value
would have aborted the call). -/
theorem clearLoop_frozen (ref : Ref) (rev : Nat) (k : String) (e : attrmeta.Attr)
    (he : e.Attr.IsFrozen = true) :
    ∀ (l : attrmeta.Namespace) (acc : attrmeta.Namespace) (diff : attrmeta.Diff)
      (out : attrmeta.Namespace × attrmeta.Diff),
      (∀ p ∈ l, (p.2).Attr.Key = p.1) →
      (l.map Prod.fst).Nodup →
      attrmeta.mapGet l k = some e →
      clearLoop ref rev l acc diff = .ok out →
      attrmeta.mapGet out.1 k = some e := by
  intro l
  induction l with
  | nil =>
    intro acc diff out _ _ hget _
    simp [attrmeta.mapGet] at hget
  | cons p rest ih =>
    obtain ⟨k₁, e₁⟩ := p
    intro acc diff out hkc hnd hget hloop
    have hk₁ : e₁.Attr.Key = k₁ := hkc (k₁, e₁) (by simp)
    have hkcr : ∀ p ∈ rest, (p.2).Attr.Key = p.1 :=
      fun q hq => hkc q (List.mem_cons_of_mem _ hq)
    simp only [List.map_cons, List.nodup_cons] at hnd
    simp only [clearLoop] at hloop
    by_cases hk : k₁ = k
    · subst hk
      simp only [attrmeta.mapGet, if_pos rfl] at hget
      cases hget
      by_cases hv : e.Attr.Value ≠ ""
      · rw [if_pos hv, if_pos he] at hloop
        cases hloop
      · rw [if_neg hv] at hloop
        rw [clearLoop_notin ref rev k₁ rest _ _ out hkcr hnd.1 hloop]
        rw [hk₁]
        exact attrmeta.mapGet_mapSet_self _ _ _
    · simp only [attrmeta.mapGet, if_neg hk] at hget
      by_cases hv : e₁.Attr.Value ≠ ""
      · rw [if_pos hv] at hloop
        by_cases hfr : e₁.Attr.IsFrozen = true
        · rw [if_pos hfr] at hloop
          cases hloop
        · rw [if_neg hfr] at hloop
          exact ih _ _ out hkcr hnd.2 hget hloop
      · rw [if_neg hv] at hloop
        exact ih _ _ out hkcr hnd.2 hget hloop

/-- `clearLoop` only ever inserts self-keyed entries, so starting from a
well-formed accumulator it produces a well-formed namespace. -/
theorem clearLoop_WF (ref : Ref) (rev : Nat) :
    ∀ (l : attrmeta.Namespace) (acc : attrmeta.Namespace) (diff : attrmeta.Diff)
      (out : attrmeta.Namespace × attrmeta.Diff),
      (∀ p ∈ l, (p.2).Attr.Key = p.1) →
      WFNamespace acc →
      clearLoop ref rev l acc diff = .ok out →
      WFNamespace out.1 := by
  intro l
  induction l with
  | nil =>
    intro acc diff out _ hwf hloop
    simp only [clearLoop] at hloop
    cases hloop
    exact hwf
  | cons p rest ih =>
    obtain ⟨k₁, e₁⟩ := p
    intro acc diff out hkc hwf hloop
    have hkcr : ∀ p ∈ rest, (p.2).Attr.Key = p.1 :=
      fun q hq => hkc q (List.mem_cons_of_mem _ hq)
    simp only [clearLoop] at hloop
    by_cases hv : e₁.Attr.Value ≠ ""
    · rw [if_pos hv] at hloop
      by_cases hfr : e₁.Attr.IsFrozen = true
      · rw [if_pos hfr] at hloop
        cases hloop
      · rw [if_neg hfr] at hloop
        refine ih _ _ out hkcr ?_ hloop
        exact ⟨attrmeta.keyConsistent_mapSet _ _ _ rfl hwf.1,
          attrmeta.nodup_keys_mapSet _ _ _ hwf.2⟩
    · rw [if_neg hv] at hloop
      refine ih _ _ out hkcr ?_ hloop
      exact ⟨attrmeta.keyConsistent_mapSet _ _ _ rfl hwf.1,
        attrmeta.nodup_keys_mapSet _ _ _ hwf.2⟩

/-- The per-namespace invariant tracked through a sequence of calls: the
namespace is well-formed and still holds the frozen entry `e` under `k`. -/
def FrozenInv (ns k : String) (e : attrmeta.Attr) (c : Catalog) : Prop :=
  WFNamespace (attrmeta.tableGet c.attrs ns) ∧
    attrmeta.mapGet (attrmeta.tableGet c.attrs ns) k = some e

/-- The attribute table after a successful `TryUpdate`: unchanged when the
diff is empty, the merged namespace otherwise. -/
theorem TryUpdate_ok_attrs (c : Catalog) (ns' : String) (attrs : List Attr)
    (na : attrmeta.Namespace) (df : attrmeta.Diff) (hd : ¬c.done = true)
    (hloop : updateLoop c.ref (c.ref.Rev + 1) attrs
        (attrmeta.Clone (attrmeta.tableGet c.attrs ns'))
        (attrmeta.NewDiff ns' (c.ref.Rev + 1)) = .ok (na, df)) :
    (c.TryUpdate c.ref ns' attrs).2.attrs =
      if df.IsEmpty then c.attrs else attrmeta.CloneAndMerge c.attrs ns' na := by
  simp [Catalog.TryUpdate, hd, hloop]

/-- `TryUpdate` whose loop aborts leaves the catalog untouched. -/
theorem TryUpdate_loop_err (c : Catalog) (ns' : String) (attrs : List Attr)
    (err : UErr) (hd : ¬c.done = true)
    (hloop : updateLoop c.ref (c.ref.Rev + 1) attrs
        (attrmeta.Clone (attrmeta.tableGet c.attrs ns'))
        (attrmeta.NewDiff ns' (c.ref.Rev + 1)) = .error err) :
    (c.TryUpdate c.ref ns' attrs).2 = c := by
  simp [Catalog.TryUpdate, hd, hloop]

/-- One `TryUpdate` call preserves the frozen-entry invariant. -/
theorem TryUpdate_frozenInv (ns k : String) (e : attrmeta.Attr)
    (he : e.Attr.IsFrozen = true) (c : Catalog) (ref : Ref) (ns' : String)
    (attrs : List Attr) (hinv : FrozenInv ns k e c) :
    FrozenInv ns k e (c.TryUpdate ref ns' attrs).2 := by
  by_cases hd : c.done
  · simpa [Catalog.TryUpdate, hd] using hinv
  · by_cases hr : ref = c.ref
    · subst hr
      rcases hloop : updateLoop c.ref (c.ref.Rev + 1) attrs
          (attrmeta.Clone (attrmeta.tableGet c.attrs ns'))
          (attrmeta.NewDiff ns' (c.ref.Rev + 1)) with err | pair
      · rw [TryUpdate_loop_err c ns' attrs err hd hloop]
        exact hinv
      · obtain ⟨na, df⟩ := pair
        have hattrs := TryUpdate_ok_attrs c ns' attrs na df hd hloop
        unfold FrozenInv at hinv ⊢
        rw [hattrs]
        by_cases hde : df.IsEmpty
        · rw [if_pos hde]
          exact hinv
        · rw [if_neg hde]
          by_cases hns : ns' = ns
          · subst hns
            rw [attrmeta.tableGet_cloneAndMerge_self]
            exact ⟨updateLoop_WF _ _ attrs _ _ (na, df) hloop hinv.1,
              updateLoop_frozen _ _ k e he attrs _ _ (na, df) hloop hinv.2⟩
          · rw [attrmeta.tableGet_cloneAndMerge_ne _ _ _ _ hns]
            exact hinv
    · simpa [Catalog.TryUpdate, hd, hr] using hinv

/-- The attribute table after a successful `TryClear`: unchanged when the
diff is empty, the merged rebuilt namespace otherwise. -/
theorem TryClear_ok_attrs (c : Catalog) (ns' : String)
    (na : attrmeta.Namespace) (df : attrmeta.Diff) (hd : ¬c.done = true)
    (hloop : clearLoop c.ref (c.ref.Rev + 1) (attrmeta.tableGet c.attrs ns') []
        (attrmeta.NewDiff ns' (c.ref.Rev + 1)) = .ok (na, df)) :
    (c.TryClear c.ref ns').2.attrs =
      if df.IsEmpty then c.attrs else attrmeta.CloneAndMerge c.attrs ns' na := by
  simp [Catalog.TryClear, hd, hloop]

/-- `TryClear` whose loop aborts leaves the catalog untouched. -/
theorem TryClear_loop_err (c : Catalog) (ns' : String) (err : UErr)
    (hd : ¬c.done = true)
    (hloop : clearLoop c.ref (c.ref.Rev + 1) (attrmeta.tableGet c.attrs ns') []
        (attrmeta.NewDiff ns' (c.ref.Rev + 1)) = .error err) :
    (c.TryClear c.ref ns').2 = c := by
  simp [Catalog.TryClear, hd, hloop]

/-- One `TryClear` call preserves the frozen-entry invariant. -/
theorem TryClear_frozenInv (ns k : String) (e : attrmeta.Attr)
    (he : e.Attr.IsFrozen = true) (c : Catalog) (ref : Ref) (ns' : String)
    (hinv : FrozenInv ns k e c) :
    FrozenInv ns k e (c.TryClear ref ns').2 := by
  by_cases hd : c.done
  · simpa [Catalog.TryClear, hd] using hinv
  · by_cases hr : ref = c.ref
    · subst hr
      rcases hloop : clearLoop c.ref (c.ref.Rev + 1) (attrmeta.tableGet c.attrs ns') []
          (attrmeta.NewDiff ns' (c.ref.Rev + 1)) with err | pair
      · rw [TryClear_loop_err c ns' err hd hloop]
        exact hinv
      · obtain ⟨na, df⟩ := pair
        have hattrs := TryClear_ok_attrs c ns' na df hd hloop
        unfold FrozenInv at hinv ⊢
        rw [hattrs]
        by_cases hde : df.IsEmpty
        · rw [if_pos hde]
          exact hinv
        · rw [if_neg hde]
          by_cases hns : ns' = ns
          · subst hns
            rw [attrmeta.tableGet_cloneAndMerge_self]
            exact ⟨clearLoop_WF _ _ _ _ _ (na, df) hinv.1.1 ⟨by simp, by simp⟩ hloop,
              clearLoop_frozen _ _ k e he _ _ _ (na, df) hinv.1.1 hinv.1.2 hinv.2 hloop⟩
          · rw [attrmeta.tableGet_cloneAndMerge_ne _ _ _ _ hns]
            exact hinv
    · simpa [Catalog.TryClear, hd, hr] using hinv

/-- Any sequence of `TryUpdate`/`TryClear` calls preserves the frozen-entry
invariant. -/
theorem runOps_frozenInv (ns k : String) (e : attrmeta.Attr)
    (he : e.Attr.IsFrozen = true) (c : Catalog) (ops : List CatOp)
    (hinv : FrozenInv ns k e c) : FrozenInv ns k e (c.runOps ops).1 := by
  induction ops generalizing c with
  | nil => simpa [Catalog.runOps] using hinv
  | cons op rest ih =>
    simp only [Catalog.runOps]
    refine ih (c.applyOp op).2 ?_
    cases op with
    | update ref ns' attrs => exact TryUpdate_frozenInv ns k e he c ref ns' attrs hinv
    | clear ref ns' => exact TryClear_frozenInv ns k e he c ref ns' hinv

end localsession

/-! ## Claim C2 -/

open localsession in
/-- **C2.** An attribute observed frozen at some revision stays identical —
same value, still frozen (in fact the whole entry, metadata included, is
unchanged) — after every sequence of `TryUpdate`/`TryClear` calls: no
operation ever changes the value of, or unfreezes, a frozen attribute. -/
theorem C2_frozen_attributes_immutable (c : Catalog) (ns k : String)
    (e : attrmeta.Attr)
    (hwf : WFNamespace (attrmeta.tableGet c.attrs ns))
    (hget : attrmeta.mapGet (attrmeta.tableGet c.attrs ns) k = some e)
    (hfrozen : e.Attr.IsFrozen = true) (ops : List CatOp) :
    attrmeta.mapGet (attrmeta.tableGet (c.runOps ops).1.attrs ns) k = some e :=
  (runOps_frozenInv ns k e hfrozen c ops ⟨hwf, hget⟩).2

open localsession in
/-- Witness for C2: a catalog holding the frozen attribute `x@v` keeps it,
byte for byte, across a successful update of another attribute followed by a
clear attempt (which fails on the frozen value) and a successful no-op
update. -/
theorem C2_frozen_attributes_immutable_witness :
    attrmeta.mapGet
      (attrmeta.tableGet
        (Catalog.runOps
          { ref := (⟨⟨1, 0xBAD⟩, 7⟩ : SessionID).At 1
            attrs := [("ns", [("x", ⟨Freeze "x" "v", 1, 1⟩)])]
            seq := 0
            done := false }
          [.update ((⟨⟨1, 0xBAD⟩, 7⟩ : SessionID).At 1) "ns" [Set "a" "1"],
           .clear ((⟨⟨1, 0xBAD⟩, 7⟩ : SessionID).At 2) "ns",
           .update ((⟨⟨1, 0xBAD⟩, 7⟩ : SessionID).At 2) "ns" [Freeze "x" "v"]]).1.attrs
        "ns") "x" = some ⟨Freeze "x" "v", 1, 1⟩ :=
  C2_frozen_attributes_immutable _ "ns" "x" ⟨Freeze "x" "v", 1, 1⟩
    (by decide) (by decide) (by decide) _

open localsession in
/-- Witness for C1 at a concrete catalog: a successful update advances the
revision to 1 and resets `seq`, and a stale update leaves the state alone. -/
theorem C1_rev_accounting_witness :
    ((NewCatalog ⟨⟨1, 0xBAD⟩, 7⟩).applyOp
        (.update ((⟨⟨1, 0xBAD⟩, 7⟩ : SessionID).At 0) "ns" [Set "a" "1"])).2.ref.Rev =
      (NewCatalog ⟨⟨1, 0xBAD⟩, 7⟩).ref.Rev + 1 ∧
    ((NewCatalog ⟨⟨1, 0xBAD⟩, 7⟩).applyOp
        (.update ((⟨⟨1, 0xBAD⟩, 7⟩ : SessionID).At 0) "ns" [Set "a" "1"])).2.seq = 0 ∧
    ((NewCatalog ⟨⟨1, 0xBAD⟩, 7⟩).applyOp
        (.update ((⟨⟨1, 0xBAD⟩, 7⟩ : SessionID).At 1) "ns" [Set "a" "1"])).2 =
      NewCatalog ⟨⟨1, 0xBAD⟩, 7⟩ := by
  refine ⟨(C1_rev_accounting.1 _ _).1 (by decide) |>.1,
    (C1_rev_accounting.1 _ _).1 (by decide) |>.2,
    (C1_rev_accounting.1 _ _).2 (by decide)⟩

namespace localsession

/-- A proposed attribute that exactly matches the existing entry (Go's
two-field comparison against the zero-value-defaulted lookup) is skipped by
the update loop. -/
def NoOpAgainst (ns : attrmeta.Namespace) (a : Attr) : Prop :=
  a.Value = ((attrmeta.mapGet ns a.Key).getD attrmeta.zeroAttr).Attr.Value ∧
  a.IsFrozen = ((attrmeta.mapGet ns a.Key).getD attrmeta.zeroAttr).Attr.IsFrozen

instance (ns : attrmeta.Namespace) (a : Attr) : Decidable (NoOpAgainst ns a) :=
  inferInstanceAs (Decidable (_ ∧ _))

/-- A batch of no-op attributes leaves the update loop's accumulator and diff
untouched. -/
theorem updateLoop_noop (ref : Ref) (rev : Nat) :
    ∀ (attrs : List Attr) (acc : attrmeta.Namespace) (diff : attrmeta.Diff),
      (∀ a ∈ attrs, NoOpAgainst acc a) →
      updateLoop ref rev attrs acc diff = .ok (acc, diff) := by
  intro attrs
  induction attrs with
  | nil => intro acc diff _; simp [updateLoop]
  | cons attr rest ih =>
    intro acc diff hnoop
    obtain ⟨h₁, h₂⟩ := hnoop attr (by simp)
    simp only [updateLoop]
    rw [if_pos ⟨h₁, h₂⟩]
    exact ih acc diff fun a ha => hnoop a (List.mem_cons_of_mem _ ha)

end localsession

/-! ## Claim C4 (corrected) -/

open localsession in
/-- **C4, counterexample.** The claim says a `TryUpdate` whose proposed
attributes are all no-ops does not advance the revision.  The code advances
it unconditionally once the ref and done checks pass: on a catalog at
revision 1 holding `a=1`, re-proposing `a=1` succeeds and moves the revision
to 2 (while, indeed, changing nothing in the table). -/
theorem C4_noop_advances_counterexample :
    (∀ a ∈ [Set "a" "1"],
      NoOpAgainst (attrmeta.tableGet
        (Catalog.mk ((⟨⟨1, 0xBAD⟩, 7⟩ : SessionID).At 1)
          [("ns", [("a", ⟨Set "a" "1", 1, 1⟩)])] 0 false).attrs "ns") a) ∧
    exceptOk ((Catalog.mk ((⟨⟨1, 0xBAD⟩, 7⟩ : SessionID).At 1)
        [("ns", [("a", ⟨Set "a" "1", 1, 1⟩)])] 0 false).TryUpdate
        ((⟨⟨1, 0xBAD⟩, 7⟩ : SessionID).At 1) "ns" [Set "a" "1"]).1 = true ∧
    ((Catalog.mk ((⟨⟨1, 0xBAD⟩, 7⟩ : SessionID).At 1)
        [("ns", [("a", ⟨Set "a" "1", 1, 1⟩)])] 0 false).TryUpdate
        ((⟨⟨1, 0xBAD⟩, 7⟩ : SessionID).At 1) "ns" [Set "a" "1"]).2.ref.Rev = 2 := by
  decide

open localsession in
/-- **C4, amended.** A `TryUpdate` on an open catalog with a matching ref
whose proposed attributes are entirely no-ops succeeds and still advances the
revision by exactly 1 (resetting `seq`); only the attribute table is left
unchanged, because the empty diff suppresses installing the cloned
namespace. -/
theorem C4_noop_update_still_advances (c : Catalog) (ns : String)
    (attrs : List Attr) (hd : c.done = false)
    (hnoop : ∀ a ∈ attrs, NoOpAgainst (attrmeta.tableGet c.attrs ns) a) :
    exceptOk (c.TryUpdate c.ref ns attrs).1 = true ∧
    (c.TryUpdate c.ref ns attrs).2.ref.Rev = c.ref.Rev + 1 ∧
    (c.TryUpdate c.ref ns attrs).2.seq = 0 ∧
    (c.TryUpdate c.ref ns attrs).2.attrs = c.attrs := by
  have hloop := updateLoop_noop c.ref (c.ref.Rev + 1) attrs
    (attrmeta.Clone (attrmeta.tableGet c.attrs ns))
    (attrmeta.NewDiff ns (c.ref.Rev + 1)) hnoop
  simp only [Catalog.TryUpdate, hd, Bool.false_eq_true, if_false, ne_eq,
    not_true_eq_false, hloop, exceptOk]
  refine ⟨trivial, trivial, trivial, ?_⟩
  simp [attrmeta.NewDiff, attrmeta.Diff.IsEmpty]

open localsession in
/-- Witness for the amended C4 at a concrete catalog. -/
theorem C4_noop_update_still_advances_witness :
    exceptOk ((Catalog.mk ((⟨⟨1, 0xBAD⟩, 7⟩ : SessionID).At 1)
        [("ns", [("a", ⟨Set "a" "1", 1, 1⟩)])] 3 false).TryUpdate
        ((⟨⟨1, 0xBAD⟩, 7⟩ : SessionID).At 1) "ns" [Set "a" "1", Set "b" ""]).1 = true ∧
    ((Catalog.mk ((⟨⟨1, 0xBAD⟩, 7⟩ : SessionID).At 1)
        [("ns", [("a", ⟨Set "a" "1", 1, 1⟩)])] 3 false).TryUpdate
        ((⟨⟨1, 0xBAD⟩, 7⟩ : SessionID).At 1) "ns" [Set "a" "1", Set "b" ""]).2.ref.Rev =
      (Catalog.mk ((⟨⟨1, 0xBAD⟩, 7⟩ : SessionID).At 1)
        [("ns", [("a", ⟨Set "a" "1", 1, 1⟩)])] 3 false).ref.Rev + 1 ∧
    ((Catalog.mk ((⟨⟨1, 0xBAD⟩, 7⟩ : SessionID).At 1)
        [("ns", [("a", ⟨Set "a" "1", 1, 1⟩)])] 3 false).TryUpdate
        ((⟨⟨1, 0xBAD⟩, 7⟩ : SessionID).At 1) "ns" [Set "a" "1", Set "b" ""]).2.seq = 0 ∧
    ((Catalog.mk ((⟨⟨1, 0xBAD⟩, 7⟩ : SessionID).At 1)
        [("ns", [("a", ⟨Set "a" "1", 1, 1⟩)])] 3 false).TryUpdate
        ((⟨⟨1, 0xBAD⟩, 7⟩ : SessionID).At 1) "ns" [Set "a" "1", Set "b" ""]).2.attrs =
      (Catalog.mk ((⟨⟨1, 0xBAD⟩, 7⟩ : SessionID).At 1)
        [("ns", [("a", ⟨Set "a" "1", 1, 1⟩)])] 3 false).attrs :=
  C4_noop_update_still_advances _ "ns" [Set "a" "1", Set "b" ""] (by decide) (by decide)

/-! ## The legacy catalog (`src/src/internals/localsession/catalog.go`)

The older generation of the catalog: a flat (non-namespaced) attribute
table, an `isClosed` flag instead of a done channel, and a `TryUpdate` that
collects *all* offending frozen keys before failing.  The optional diff
writer argument is modelled as absent (`diff == nil`), which eliminates its
error paths.  Note that the loop never assigns `entry.IsFrozen`
(catalog.go lines 165–171). -/

namespace internals

/-- `internals.AttrWithMetaData`. -/
structure AttrWithMetaData where
  Key : String
  Value : String
  IsFrozen : Bool
  CreatedAt : Nat
  UpdatedAt : Nat
deriving DecidableEq, Repr

/-- The Go zero value of `AttrWithMetaData`. -/
def zeroAttr : AttrWithMetaData :=
  { Key := "", Value := "", IsFrozen := false, CreatedAt := 0, UpdatedAt := 0 }

/-- `internals.AttrTableWithMetaData` (`map[string]AttrWithMetaData`). -/
abbrev AttrTableWithMetaData := List (String × AttrWithMetaData)

/-- Go map lookup `t[k]`. -/
def mapGet (t : AttrTableWithMetaData) (k : String) : Option AttrWithMetaData :=
  match t with
  | [] => none
  | (k', v) :: rest => if k' = k then some v else mapGet rest k

/-- Go map assignment `t[k] = v`. -/
def mapSet (t : AttrTableWithMetaData) (k : String) (v : AttrWithMetaData) :
    AttrTableWithMetaData :=
  match t with
  | [] => [(k, v)]
  | (k', v') :: rest => if k' = k then (k, v) :: rest else (k', v') :: mapSet rest k v

/-- `AttrTableWithMetaData.Clone`. -/
def Clone (t : AttrTableWithMetaData) : AttrTableWithMetaData :=
  t

structure revision where
  ref : Ref
  attrs : AttrTableWithMetaData
deriving DecidableEq, Repr

structure catalog where
  ref : Ref
  attrs : AttrTableWithMetaData
  seq : Nat
  isClosed : Bool
deriving DecidableEq, Repr

/-- The `for index, attr := range attrs` loop of the legacy `TryUpdate`
(catalog.go lines 153–186): no-ops are skipped, attributes hitting a frozen
entry are recorded in `frozen` and the loop continues, and other attributes
are applied to the cloned table. -/
def updLoop (nextRev : Nat) :
    List Attr → AttrTableWithMetaData → List String →
    AttrTableWithMetaData × List String
  | [], acc, frozen => (acc, frozen)
  | attr :: rest, acc, frozen =>
    let entry0 := mapGet acc attr.Key
    let entry := entry0.getD zeroAttr
    if attr.Value = entry.Value ∧ attr.IsFrozen = entry.IsFrozen then
      updLoop nextRev rest acc frozen
    else if entry.IsFrozen then
      updLoop nextRev rest acc (frozen ++ [attr.Key])
    else
      let entry1 : AttrWithMetaData :=
        { Key := if entry0.isSome then entry.Key else attr.Key
          Value := attr.Value
          IsFrozen := entry.IsFrozen
          CreatedAt := if entry0.isSome then entry.CreatedAt else nextRev
          UpdatedAt := nextRev }
      updLoop nextRev rest (mapSet acc attr.Key entry1) frozen

/-- `catalog.TryUpdate` (catalog.go lines 132–201): fails with
`FrozenAttributes{Ref, Keys}` listing every offending key when any was
collected; commits (unconditionally advancing the revision) otherwise. -/
def catalog.TryUpdate (c : catalog) (ref : Ref) (attrs : List Attr) :
    Except UErr revision × catalog :=
  if c.isClosed then (.error (.notFound c.ref.ID), c)
  else if ref ≠ c.ref then (.error (.staleUpdate ref), c)
  else
    let res := updLoop (ref.Rev + 1) attrs (Clone c.attrs) []
    if res.2 ≠ [] then (.error (.frozenAttributes ref res.2), c)
    else
      let c' : catalog :=
        { c with ref := { c.ref with Rev := ref.Rev + 1 }, attrs := res.1, seq := 0 }
      (.ok { ref := c'.ref, attrs := c'.attrs }, c')

/-- The keys of proposed attributes that collide with a frozen entry of the
given table — a differing `(Value, IsFrozen)` pair against an entry whose
`IsFrozen` is set — in proposal order. -/
def offendingKeys (orig : AttrTableWithMetaData) : List Attr → List String
  | [] => []
  | a :: rest =>
    let entry := (mapGet orig a.Key).getD zeroAttr
    if ¬(a.Value = entry.Value ∧ a.IsFrozen = entry.IsFrozen) ∧ entry.IsFrozen = true then
      a.Key :: offendingKeys orig rest
    else
      offendingKeys orig rest

/-- The frozen entries a table exposes at a key: `some e` when the entry
exists and is frozen, `none` otherwise. -/
def frozenView (t : AttrTableWithMetaData) (k : String) : Option AttrWithMetaData :=
  match mapGet t k with
  | some e => if e.IsFrozen then some e else none
  | none => none

/-- A frozen view `some e` pins down the underlying lookup. -/
theorem frozenView_some (t : AttrTableWithMetaData) (k : String) (e : AttrWithMetaData)
    (h : frozenView t k = some e) : mapGet t k = some e ∧ e.IsFrozen = true := by
  unfold frozenView at h
  rcases hg : mapGet t k with _ | e' <;> rw [hg] at h <;> dsimp only at h
  · cases h
  · by_cases hf : e'.IsFrozen = true
    · rw [if_pos hf] at h
      injection h with h
      subst h
      exact ⟨rfl, hf⟩
    · rw [if_neg hf] at h
      cases h

/-- An unfrozen (or missing) lookup makes the frozen view empty. -/
theorem frozenView_eq_none (t : AttrTableWithMetaData) (k : String)
    (h : ((mapGet t k).getD zeroAttr).IsFrozen = false) : frozenView t k = none := by
  unfold frozenView
  rcases hg : mapGet t k with _ | e' <;> rw [hg] at h <;> dsimp only
  simp only [Option.getD] at h
  simp [h]

/-- A frozen defaulted lookup pins down the frozen view. -/
theorem frozenView_eq_some (t : AttrTableWithMetaData) (k : String)
    (h : ((mapGet t k).getD zeroAttr).IsFrozen = true) :
    frozenView t k = some ((mapGet t k).getD zeroAttr) := by
  unfold frozenView
  rcases hg : mapGet t k with _ | e' <;> rw [hg] at h <;> dsimp only
  · simp [zeroAttr, Option.getD] at h
  · simp only [Option.getD] at h ⊢
    simp [h]

theorem mapGet_mapSet_self_legacy (t : AttrTableWithMetaData) (k : String) (v : AttrWithMetaData) :
    mapGet (mapSet t k v) k = some v := by
  induction t with
  | nil => simp [mapSet, mapGet]
  | cons p rest ih =>
    obtain ⟨k', v'⟩ := p
    by_cases h : k' = k
    · simp [mapSet, mapGet, h]
    · simp [mapSet, mapGet, h, ih]

theorem mapGet_mapSet_ne_legacy (t : AttrTableWithMetaData) (k' k : String)
    (v : AttrWithMetaData) (h : k' ≠ k) : mapGet (mapSet t k' v) k = mapGet t k := by
  induction t with
  | nil => simp [mapSet, mapGet, h]
  | cons p rest ih =>
    obtain ⟨k₁, v₁⟩ := p
    by_cases h₁ : k₁ = k'
    · subst h₁
      simp [mapSet, mapGet, h, ih]
    · simp only [mapSet, if_neg h₁]
      by_cases h₂ : k₁ = k <;> simp [mapGet, h₂, ih]

/-- If the frozen views of the accumulator and of the original table agree at
a key, the loop's branch tests on frozen entries coincide there. -/
theorem frozen_entry_agree (acc orig : AttrTableWithMetaData) (key : String)
    (hinv : frozenView acc key = frozenView orig key) :
    (((mapGet acc key).getD zeroAttr).IsFrozen = true →
      (mapGet orig key).getD zeroAttr = (mapGet acc key).getD zeroAttr) ∧
    (((mapGet acc key).getD zeroAttr).IsFrozen = false →
      ((mapGet orig key).getD zeroAttr).IsFrozen = false) := by
  constructor
  · intro hfz
    have hv := frozenView_eq_some acc key hfz
    have hor : frozenView orig key = some ((mapGet acc key).getD zeroAttr) := by
      rw [← hinv, hv]
    have hsome := frozenView_some orig key _ hor
    rw [hsome.1]
    rfl
  · intro hfz
    by_contra hcon
    have hfz' : ((mapGet orig key).getD zeroAttr).IsFrozen = true := by
      cases hb : ((mapGet orig key).getD zeroAttr).IsFrozen
      · exact absurd hb hcon
      · rfl
    have hv := frozenView_eq_some orig key hfz'
    rw [← hinv, frozenView_eq_none acc key hfz] at hv
    cases hv

/-- Inserting an unfrozen entry never changes a frozen view. -/
theorem frozenView_mapSet_ne (t : AttrTableWithMetaData) (k0 k : String)
    (v : AttrWithMetaData) (h : k0 ≠ k) :
    frozenView (mapSet t k0 v) k = frozenView t k := by
  unfold frozenView
  rw [mapGet_mapSet_ne_legacy _ _ _ _ h]

/-- The frozen keys collected by the legacy update loop are exactly the
proposed keys that offend against the original table, in order; and the loop
never creates, removes, or alters a frozen entry. -/
theorem updLoop_keys (nextRev : Nat) (orig : AttrTableWithMetaData) :
    ∀ (attrs : List Attr) (acc : AttrTableWithMetaData) (frozen : List String),
      (∀ k', frozenView acc k' = frozenView orig k') →
      (updLoop nextRev attrs acc frozen).2 = frozen ++ offendingKeys orig attrs ∧
      (∀ k', frozenView (updLoop nextRev attrs acc frozen).1 k' = frozenView orig k') := by
  intro attrs
  induction attrs with
  | nil =>
    intro acc frozen hinv
    exact ⟨by simp [updLoop, offendingKeys], by simpa [updLoop] using hinv⟩
  | cons attr rest ih =>
    intro acc frozen hinv
    have hagree := frozen_entry_agree acc orig attr.Key (hinv attr.Key)
    simp only [updLoop]
    by_cases hno : attr.Value = ((mapGet acc attr.Key).getD zeroAttr).Value ∧
        attr.IsFrozen = ((mapGet acc attr.Key).getD zeroAttr).IsFrozen
    · rw [if_pos hno]
      have hcond : ¬(¬(attr.Value = ((mapGet orig attr.Key).getD zeroAttr).Value ∧
          attr.IsFrozen = ((mapGet orig attr.Key).getD zeroAttr).IsFrozen) ∧
          ((mapGet orig attr.Key).getD zeroAttr).IsFrozen = true) := by
        rintro ⟨hdiff, hofr⟩
        cases hfz : ((mapGet acc attr.Key).getD zeroAttr).IsFrozen
        · rw [hagree.2 hfz] at hofr
          cases hofr
        · rw [hagree.1 hfz] at hdiff
          exact hdiff hno
      have hoff : offendingKeys orig (attr :: rest) = offendingKeys orig rest := by
        simp only [offendingKeys]
        rw [if_neg hcond]
      rw [hoff]
      exact ih acc frozen hinv
    · rw [if_neg hno]
      by_cases hfz : ((mapGet acc attr.Key).getD zeroAttr).IsFrozen = true
      · rw [if_pos hfz]
        have heq := hagree.1 hfz
        have hcond : ¬(attr.Value = ((mapGet orig attr.Key).getD zeroAttr).Value ∧
            attr.IsFrozen = ((mapGet orig attr.Key).getD zeroAttr).IsFrozen) ∧
            ((mapGet orig attr.Key).getD zeroAttr).IsFrozen = true := by
          rw [heq]
          exact ⟨hno, hfz⟩
        have hoff : offendingKeys orig (attr :: rest) =
            attr.Key :: offendingKeys orig rest := by
          simp only [offendingKeys]
          rw [if_pos hcond]
        rw [hoff]
        obtain ⟨ht1, ht2⟩ := ih acc (frozen ++ [attr.Key]) hinv
        refine ⟨?_, ht2⟩
        rw [ht1]
        simp
      · rw [if_neg hfz]
        have hfz' : ((mapGet acc attr.Key).getD zeroAttr).IsFrozen = false := by
          cases hb : ((mapGet acc attr.Key).getD zeroAttr).IsFrozen
          · rfl
          · exact absurd hb hfz
        have hcond : ¬(¬(attr.Value = ((mapGet orig attr.Key).getD zeroAttr).Value ∧
            attr.IsFrozen = ((mapGet orig attr.Key).getD zeroAttr).IsFrozen) ∧
            ((mapGet orig attr.Key).getD zeroAttr).IsFrozen = true) := by
          rintro ⟨_, hofr⟩
          rw [hagree.2 hfz'] at hofr
          cases hofr
        have hoff : offendingKeys orig (attr :: rest) = offendingKeys orig rest := by
          simp only [offendingKeys]
          rw [if_neg hcond]
        rw [hoff]
        refine ih _ frozen ?_
        intro k'
        by_cases hk : attr.Key = k'
        · subst hk
          rw [frozenView_eq_none _ _ (by
            rw [mapGet_mapSet_self_legacy]
            simpa using hfz')]
          rw [← hinv attr.Key, frozenView_eq_none acc attr.Key hfz']
        · rw [frozenView_mapSet_ne _ _ _ _ hk]
          exact hinv k'

/-- On an open catalog with a matching ref, a proposal offending any frozen
key fails with `FrozenAttributes` carrying exactly the offending keys, and
commits nothing. -/
theorem catalog.TryUpdate_offending (c : catalog) (attrs : List Attr)
    (hc : c.isClosed = false) (hoff : offendingKeys c.attrs attrs ≠ []) :
    c.TryUpdate c.ref attrs =
      (.error (.frozenAttributes c.ref (offendingKeys c.attrs attrs)), c) := by
  have hkeys := (updLoop_keys (c.ref.Rev + 1) c.attrs attrs (Clone c.attrs) []
    (fun _ => rfl)).1
  simp only [List.nil_append] at hkeys
  simp [catalog.TryUpdate, hc, hkeys, hoff]

end internals

namespace localsession

/-- If the accumulator holds a frozen entry `e` under `k` and some proposed
attribute changes it, the part_002 update loop aborts with the
`FrozenAttributes` error — whose `Keys` field is left empty. -/
theorem updateLoop_offender_errors (ref : Ref) (rev : Nat) (k : String)
    (e : attrmeta.Attr) (he : e.Attr.IsFrozen = true) :
    ∀ (attrs : List Attr) (acc : attrmeta.Namespace) (diff : attrmeta.Diff),
      attrmeta.mapGet acc k = some e →
      (∃ a ∈ attrs, a.Key = k ∧ ¬(a.Value = e.Attr.Value ∧ a.IsFrozen = e.Attr.IsFrozen)) →
      updateLoop ref rev attrs acc diff = .error (.frozenAttributes ref []) := by
  intro attrs
  induction attrs with
  | nil =>
    intro acc diff _ hex
    simp at hex
  | cons attr rest ih =>
    intro acc diff hget hex
    simp only [updateLoop]
    by_cases hno : attr.Value = ((attrmeta.mapGet acc attr.Key).getD attrmeta.zeroAttr).Attr.Value ∧
        attr.IsFrozen = ((attrmeta.mapGet acc attr.Key).getD attrmeta.zeroAttr).Attr.IsFrozen
    · rw [if_pos hno]
      refine ih acc diff hget ?_
      rcases hex with ⟨a, ha, hak, hadiff⟩
      rcases List.mem_cons.mp ha with rfl | ha'
      · exfalso
        rw [hak, hget] at hno
        simp only [Option.getD_some] at hno
        exact hadiff hno
      · exact ⟨a, ha', hak, hadiff⟩
    · rw [if_neg hno]
      by_cases hfz : ((attrmeta.mapGet acc attr.Key).getD attrmeta.zeroAttr).Attr.IsFrozen = true
      · rw [if_pos hfz]
      · rw [if_neg hfz]
        have hk : attr.Key ≠ k := by
          intro hkk
          rw [hkk, hget] at hfz
          simp only [Option.getD_some] at hfz
          exact hfz he
        refine ih _ _ ?_ ?_
        · rw [attrmeta.mapGet_mapSet_ne _ _ _ _ hk]
          exact hget
        · rcases hex with ⟨a, ha, hak, hadiff⟩
          rcases List.mem_cons.mp ha with rfl | ha'
          · exact absurd hak hk
          · exact ⟨a, ha', hak, hadiff⟩

/-- On an open catalog with a matching ref, proposing a change to a frozen
attribute fails with `FrozenAttributes{Ref}` (no keys) and commits nothing:
the returned state is the input state. -/
theorem TryUpdate_frozen_aborts (c : Catalog) (ns : String) (attrs : List Attr)
    (k : String) (e : attrmeta.Attr) (hd : c.done = false)
    (hget : attrmeta.mapGet (attrmeta.tableGet c.attrs ns) k = some e)
    (he : e.Attr.IsFrozen = true)
    (ha : ∃ a ∈ attrs, a.Key = k ∧ ¬(a.Value = e.Attr.Value ∧ a.IsFrozen = e.Attr.IsFrozen)) :
    c.TryUpdate c.ref ns attrs = (.error (.frozenAttributes c.ref []), c) := by
  have hloop := updateLoop_offender_errors c.ref (c.ref.Rev + 1) k e he attrs
    (attrmeta.Clone (attrmeta.tableGet c.attrs ns)) (attrmeta.NewDiff ns (c.ref.Rev + 1))
    (by simpa [attrmeta.Clone] using hget) ha
  simp [Catalog.TryUpdate, hd, hloop]

end localsession

/-! ## Claim C3 (corrected) -/

open localsession in
/-- **C3, counterexample.** In the part_002 catalog, updating the frozen
attribute `x@v` with `x=w` fails with a `FrozenAttributes` error whose key
list is empty — it does not contain the offending key `"x"`, contrary to the
claim that the keys identify the offending attribute. -/
theorem C3_frozen_keys_counterexample :
    ((Catalog.mk ((⟨⟨1, 0xBAD⟩, 7⟩ : SessionID).At 1)
        [("ns", [("x", ⟨Freeze "x" "v", 1, 1⟩)])] 0 false).TryUpdate
        ((⟨⟨1, 0xBAD⟩, 7⟩ : SessionID).At 1) "ns" [Set "x" "w"]).1 =
      .error (.frozenAttributes ((⟨⟨1, 0xBAD⟩, 7⟩ : SessionID).At 1) []) ∧
    "x" ∉ ([] : List String) := by
  decide

/-- **C3, amended.** On an open catalog with a matching ref, a proposed
change to a frozen attribute makes `TryUpdate` fail with a
`FrozenAttributes` error and commit nothing (the catalog state is exactly
the input state).  In the part_002 (rinq `localsession`) implementation the
error carries only the ref — its key list is empty; in the legacy
`internals/localsession` implementation the error's `Keys` lists exactly the
offending keys in proposal order. -/
theorem C3_frozen_update_fails_uncommitted :
    (∀ (c : localsession.Catalog) (ns : String) (attrs : List Attr) (k : String)
        (e : attrmeta.Attr), c.done = false →
      attrmeta.mapGet (attrmeta.tableGet c.attrs ns) k = some e →
      e.Attr.IsFrozen = true →
      (∃ a ∈ attrs, a.Key = k ∧ ¬(a.Value = e.Attr.Value ∧ a.IsFrozen = e.Attr.IsFrozen)) →
      c.TryUpdate c.ref ns attrs = (.error (.frozenAttributes c.ref []), c)) ∧
    (∀ (c : internals.catalog) (attrs : List Attr), c.isClosed = false →
      internals.offendingKeys c.attrs attrs ≠ [] →
      c.TryUpdate c.ref attrs =
        (.error (.frozenAttributes c.ref (internals.offendingKeys c.attrs attrs)), c)) :=
  ⟨fun c ns attrs k e hd hget he ha =>
      localsession.TryUpdate_frozen_aborts c ns attrs k e hd hget he ha,
   fun c attrs hc hoff => internals.catalog.TryUpdate_offending c attrs hc hoff⟩

open localsession in
/-- Witness for the amended C3: both catalog generations, at concrete
states, reject an update of frozen `x@v` with `x=w` and leave the state
untouched; the legacy error names `x`. -/
theorem C3_frozen_update_fails_uncommitted_witness :
    (Catalog.mk ((⟨⟨1, 0xBAD⟩, 7⟩ : SessionID).At 1)
        [("ns", [("x", ⟨Freeze "x" "v", 1, 1⟩)])] 0 false).TryUpdate
      ((⟨⟨1, 0xBAD⟩, 7⟩ : SessionID).At 1) "ns" [Set "x" "w"] =
      (.error (.frozenAttributes ((⟨⟨1, 0xBAD⟩, 7⟩ : SessionID).At 1) []),
        Catalog.mk ((⟨⟨1, 0xBAD⟩, 7⟩ : SessionID).At 1)
          [("ns", [("x", ⟨Freeze "x" "v", 1, 1⟩)])] 0 false) ∧
    (internals.catalog.mk ((⟨⟨1, 0xBAD⟩, 7⟩ : SessionID).At 1)
        [("x", ⟨"x", "v", true, 1, 1⟩)] 0 false).TryUpdate
      ((⟨⟨1, 0xBAD⟩, 7⟩ : SessionID).At 1) [Set "x" "w"] =
      (.error (.frozenAttributes ((⟨⟨1, 0xBAD⟩, 7⟩ : SessionID).At 1) ["x"]),
        internals.catalog.mk ((⟨⟨1, 0xBAD⟩, 7⟩ : SessionID).At 1)
          [("x", ⟨"x", "v", true, 1, 1⟩)] 0 false) := by
  constructor
  · exact C3_frozen_update_fails_uncommitted.1 _ "ns" [Set "x" "w"] "x"
      ⟨Freeze "x" "v", 1, 1⟩ (by decide) (by decide) (by decide)
      ⟨Set "x" "w", by decide, by decide, by decide⟩
  · have h := C3_frozen_update_fails_uncommitted.2
      (internals.catalog.mk ((⟨⟨1, 0xBAD⟩, 7⟩ : SessionID).At 1)
        [("x", ⟨"x", "v", true, 1, 1⟩)] 0 false) [Set "x" "w"] (by decide) (by decide)
    rw [h]
    decide

namespace localsession

/-! ### Message-ID monotonicity -/

/-- Strict lexicographic order on `(Rev, Seq)` pairs. -/
def lexLt (p q : Nat × Nat) : Prop :=
  p.1 < q.1 ∨ (p.1 = q.1 ∧ p.2 < q.2)

instance (p q : Nat × Nat) : Decidable (lexLt p q) :=
  inferInstanceAs (Decidable (_ ∨ _))

theorem lexLt_trans {p q r : Nat × Nat} (h₁ : lexLt p q) (h₂ : lexLt q r) : lexLt p r := by
  unfold lexLt at *
  omega

theorem lexLt_irrefl (p : Nat × Nat) : ¬lexLt p p := by
  unfold lexLt
  omega

/-- The `(Rev, Seq)` pair of a message ID. -/
def msgPair (m : MessageID) : Nat × Nat :=
  (m.Ref.Rev, m.Seq)

/-- The `(Rev, seq)` counter pair of a catalog. -/
def catPair (c : Catalog) : Nat × Nat :=
  (c.ref.Rev, c.seq)

/-- `TryDestroy` never touches the ref or the sequence counter. -/
theorem TryDestroy_counters (c : Catalog) (ref : Ref) :
    (c.TryDestroy ref).2.ref = c.ref ∧ (c.TryDestroy ref).2.seq = c.seq := by
  unfold Catalog.TryDestroy
  by_cases h : ref = c.ref <;> simp [h]

/-- Every message ID emitted along a run is lexicographically above the
starting counter, and the emitted list is strictly increasing. -/
theorem runEmit_mono (c : Catalog) (ops : List SessOp) :
    (∀ m ∈ (c.runEmit ops).2, lexLt (catPair c) (msgPair m)) ∧
    List.Pairwise (fun a b => lexLt (msgPair a) (msgPair b)) (c.runEmit ops).2 := by
  induction ops generalizing c with
  | nil => simp [Catalog.runEmit]
  | cons op rest ih =>
    cases op with
    | next =>
      simp only [Catalog.runEmit, Catalog.NextMessageID]
      obtain ⟨ih₁, ih₂⟩ := ih { c with seq := c.seq + 1 }
      have hstep : lexLt (catPair c) (catPair { c with seq := c.seq + 1 }) := by
        simp [lexLt, catPair]
      have hpair : msgPair (Ref.Message { c with seq := c.seq + 1 }.ref
          { c with seq := c.seq + 1 }.seq) = catPair { c with seq := c.seq + 1 } := rfl
      constructor
      · intro m hm
        rcases List.mem_cons.mp hm with rfl | hm'
        · rw [Ref.Message] at hpair ⊢
          rw [hpair]
          exact hstep
        · exact lexLt_trans hstep (ih₁ m hm')
      · refine List.Pairwise.cons ?_ ih₂
        intro m hm
        rw [Ref.Message] at hpair ⊢
        rw [hpair]
        exact ih₁ m hm
    | update ref ns attrs =>
      simp only [Catalog.runEmit]
      obtain ⟨ih₁, ih₂⟩ := ih (c.TryUpdate ref ns attrs).2
      refine ⟨fun m hm => ?_, ih₂⟩
      cases hok : exceptOk (c.TryUpdate ref ns attrs).1 with
      | true =>
        obtain ⟨_, hrev, hseq, _⟩ := TryUpdate_ok_state c ref ns attrs hok
        refine lexLt_trans ?_ (ih₁ m hm)
        simp [lexLt, catPair]
        omega
      | false =>
        have hs := TryUpdate_error_state c ref ns attrs hok
        have hmono := ih₁ m hm
        rwa [hs] at hmono
    | clear ref ns =>
      simp only [Catalog.runEmit]
      obtain ⟨ih₁, ih₂⟩ := ih (c.TryClear ref ns).2
      refine ⟨fun m hm => ?_, ih₂⟩
      cases hok : exceptOk (c.TryClear ref ns).1 with
      | true =>
        obtain ⟨_, hrev, hseq, _⟩ := TryClear_ok_state c ref ns hok
        refine lexLt_trans ?_ (ih₁ m hm)
        simp [lexLt, catPair]
        omega
      | false =>
        have hs := TryClear_error_state c ref ns hok
        have hmono := ih₁ m hm
        rwa [hs] at hmono
    | destroy ref =>
      simp only [Catalog.runEmit]
      obtain ⟨ih₁, ih₂⟩ := ih (c.TryDestroy ref).2
      refine ⟨fun m hm => ?_, ih₂⟩
      have hs := TryDestroy_counters c ref
      have : catPair (c.TryDestroy ref).2 = catPair c := by
        unfold catPair
        rw [hs.1, hs.2]
      rw [← this]
      exact ih₁ m hm
    | close =>
      simp only [Catalog.runEmit]
      obtain ⟨ih₁, ih₂⟩ := ih c.Close
      refine ⟨fun m hm => ?_, ih₂⟩
      have : catPair c.Close = catPair c := rfl
      rw [← this]
      exact ih₁ m hm

end localsession

/-! ## Claim C5 -/

open localsession in
/-- **C5.** `NextMessageID` increments `Seq` and emits the message ID at the
current ref; every successful `TryUpdate`/`TryClear` increases `Rev` by 1
and resets `Seq` to 0; and over any lifetime of calls (`NextMessageID`,
updates, clears, destroys, closes) the emitted message IDs have strictly
lexicographically increasing `(Rev, Seq)` pairs and are pairwise
distinct. -/
theorem C5_next_message_ids_distinct :
    (∀ c : Catalog,
      c.NextMessageID.1.1 = { Ref := c.ref, Seq := c.seq + 1 } ∧
      c.NextMessageID.2 = { c with seq := c.seq + 1 }) ∧
    (∀ (c : Catalog) (op : CatOp), exceptOk (c.applyOp op).1 = true →
      (c.applyOp op).2.ref.Rev = c.ref.Rev + 1 ∧ (c.applyOp op).2.seq = 0) ∧
    (∀ (c : Catalog) (ops : List SessOp),
      List.Pairwise (fun a b => lexLt (msgPair a) (msgPair b)) (c.runEmit ops).2 ∧
      List.Pairwise (fun a b : MessageID => a ≠ b) (c.runEmit ops).2) := by
  refine ⟨fun c => ⟨rfl, rfl⟩,
    fun c op h => ⟨(applyOp_ok_state c op h).2.1, (applyOp_ok_state c op h).2.2.1⟩,
    fun c ops => ?_⟩
  have hmono := (runEmit_mono c ops).2
  refine ⟨hmono, hmono.imp ?_⟩
  intro a b hlt hab
  rw [hab] at hlt
  exact lexLt_irrefl _ hlt

open localsession in
/-- Witness for C5: on a concrete run (two `NextMessageID` calls, a
successful update, another `NextMessageID`) the successful update advances
the counter, and the three emitted IDs are strictly increasing and
distinct. -/
theorem C5_next_message_ids_distinct_witness :
    (((NewCatalog ⟨⟨1, 0xBAD⟩, 7⟩).applyOp
        (.update ((⟨⟨1, 0xBAD⟩, 7⟩ : SessionID).At 0) "ns" [Set "a" "1"])).2.ref.Rev =
      (NewCatalog ⟨⟨1, 0xBAD⟩, 7⟩).ref.Rev + 1 ∧
      ((NewCatalog ⟨⟨1, 0xBAD⟩, 7⟩).applyOp
        (.update ((⟨⟨1, 0xBAD⟩, 7⟩ : SessionID).At 0) "ns" [Set "a" "1"])).2.seq = 0) ∧
    List.Pairwise (fun a b : MessageID => a ≠ b)
      ((NewCatalog ⟨⟨1, 0xBAD⟩, 7⟩).runEmit
        [.next, .next,
         .update ((⟨⟨1, 0xBAD⟩, 7⟩ : SessionID).At 0) "ns" [Set "a" "1"], .next]).2 :=
  ⟨C5_next_message_ids_distinct.2.1 _ _ (by decide),
   (C5_next_message_ids_distinct.2.2 _ _).2⟩

/-! ## Claim C6 -/

open localsession in
/-- **C6.** `Catalog.At(rev)` fails — with exactly the error string
"revision is from the future" — precisely when `rev` is strictly greater
than the catalog's current revision; otherwise it succeeds with a revision
handle whose ref is `(session ID, rev)` but which carries the catalog's
*current* attribute table (the head at call time), not a historical
snapshot at `rev`. -/
theorem C6_at_revision_handle (c : Catalog) (rev : Nat) :
    (c.ref.Rev < rev → c.At rev = .error "revision is from the future") ∧
    (rev ≤ c.ref.Rev →
      c.At rev = .ok { ref := { ID := c.ref.ID, Rev := rev }, attrs := c.attrs }) := by
  constructor
  · intro h
    simp [Catalog.At, h]
  · intro h
    rw [Catalog.At, if_neg (by omega)]
    rfl

open localsession in
/-- Witness for C6: at a concrete catalog at revision 1 with a non-empty
table, `At 2` is rejected as from the future and `At 0` yields the handle at
revision 0 carrying the current table. -/
theorem C6_at_revision_handle_witness :
    (Catalog.mk ((⟨⟨1, 0xBAD⟩, 7⟩ : SessionID).At 1)
        [("ns", [("a", ⟨Set "a" "1", 1, 1⟩)])] 0 false).At 2 =
      .error "revision is from the future" ∧
    (Catalog.mk ((⟨⟨1, 0xBAD⟩, 7⟩ : SessionID).At 1)
        [("ns", [("a", ⟨Set "a" "1", 1, 1⟩)])] 0 false).At 0 =
      .ok { ref := { ID := ⟨⟨1, 0xBAD⟩, 7⟩, Rev := 0 },
            attrs := [("ns", [("a", ⟨Set "a" "1", 1, 1⟩)])] } :=
  ⟨(C6_at_revision_handle _ 2).1 (by decide), (C6_at_revision_handle _ 0).2 (by decide)⟩

/-! ## Constraint matching (`src/src/rinq/internal/attrmeta/table.go`) -/

namespace attrmeta

/-- `attrmeta.Table` as in table.go: `map[string]Attr`, keyed by attribute
key (structurally the same map shape as `Namespace`). -/
abbrev Table := List (String × Attr)

/-- `Table.MatchConstraint` (table.go lines 20–28): every constraint pair
must equal the looked-up entry's `Value`; a missing key reads as the zero
`Attr`, i.e. the empty string. -/
def Table.MatchConstraint (t : Table) : List (String × String) → Bool
  | [] => true
  | (key, value) :: rest =>
    if ((mapGet t key).getD zeroAttr).Attr.Value ≠ value then false
    else Table.MatchConstraint t rest

end attrmeta

/-! ## Claim C7 -/

/-- **C7.** `MatchConstraint` returns true iff every pair `(k, v)` of the
constraint equals the table's value at `k`, where a key absent from the
table counts as having value `""`; in particular the empty constraint
matches every table. -/
theorem C7_match_constraint (t : attrmeta.Table) (constraint : List (String × String)) :
    (attrmeta.Table.MatchConstraint t constraint = true ↔
      ∀ p ∈ constraint,
        (match attrmeta.mapGet t p.1 with
          | some e => e.Attr.Value
          | none => "") = p.2) ∧
    attrmeta.Table.MatchConstraint t [] = true := by
  refine ⟨?_, rfl⟩
  induction constraint with
  | nil => simp [attrmeta.Table.MatchConstraint]
  | cons p rest ih =>
    obtain ⟨key, value⟩ := p
    simp only [attrmeta.Table.MatchConstraint]
    by_cases h : ((attrmeta.mapGet t key).getD attrmeta.zeroAttr).Attr.Value = value
    · rw [if_neg (by simpa using h)]
      constructor
      · intro hm q hq
        rcases List.mem_cons.mp hq with rfl | hq'
        · rcases hg : attrmeta.mapGet t key with _ | e
          · rw [hg] at h
            simpa [attrmeta.zeroAttr] using h
          · rw [hg] at h
            simpa using h
        · exact (ih.mp hm) q hq'
      · intro hall
        exact ih.mpr fun q hq => hall q (List.mem_cons_of_mem _ hq)
    · rw [if_pos (by simpa using h)]
      constructor
      · intro hfalse
        cases hfalse
      · intro hall
        exfalso
        have := hall (key, value) (by simp)
        apply h
        rcases hg : attrmeta.mapGet t key with _ | e
        · rw [hg] at this
          simpa [attrmeta.zeroAttr] using this
        · rw [hg] at this
          simpa using this

/-! ## The closed-revision placeholder and the aggregate store
(`src/src/rinq/internal/revision/closed.go`, `src/unnamed/part_000`) -/

namespace revision

/-- `closedRevision` (closed.go line 15): a revision backed by nothing but
a session-ref. -/
structure closedRevision where
  ref : Ref
deriving DecidableEq, Repr

/-- `Closed` (closed.go lines 11–13). -/
def Closed (ref : Ref) : closedRevision :=
  ⟨ref⟩

/-- `closedRevision.Ref`. -/
def closedRevision.Ref (r : closedRevision) : Ref :=
  r.ref

/-- `closedRevision.Refresh` (closed.go lines 21–23): `(nil, NotFound{ID})`. -/
def closedRevision.Refresh (r : closedRevision) : Option closedRevision × Option UErr :=
  (none, some (.notFound r.ref.ID))

/-- `closedRevision.Get` (closed.go lines 25–27): `(Attr{}, NotFound{ID})`. -/
def closedRevision.Get (r : closedRevision) (_key : String) : Attr × Option UErr :=
  ({ Key := "", Value := "", IsFrozen := false }, some (.notFound r.ref.ID))

/-- `closedRevision.GetMany` (closed.go lines 29–31): `(nil, NotFound{ID})`. -/
def closedRevision.GetMany (r : closedRevision) (_keys : List String) :
    Option attrmeta.Table × Option UErr :=
  (none, some (.notFound r.ref.ID))

/-- `closedRevision.Update` (closed.go lines 33–35): `(r, NotFound{ID})`. -/
def closedRevision.Update (r : closedRevision) (_attrs : List Attr) :
    closedRevision × Option UErr :=
  (r, some (.notFound r.ref.ID))

/-- `closedRevision.Close` (closed.go lines 37–39): always `nil`. -/
def closedRevision.Close (_r : closedRevision) : Option UErr :=
  none

end revision

namespace revisions

/-- Modelled from the spec: the rinq-generation `revisions.Closed(id)`
constructor called by part_000 line 46 is not under `src/` (only the
closed.go generation, which takes a full session-ref, is).  Per §4.4/§4.6
the placeholder's observable behaviour depends only on the session ID,
which every error carries; the ref's revision component is pinned at 0. -/
def Closed (id : SessionID) : revision.closedRevision :=
  ⟨{ ID := id, Rev := 0 }⟩

/-- A `Store` lookup result: either the closed placeholder or a revision
supplied by the underlying store; `none` models a nil `rinq.Revision`
interface value. -/
abbrev StoreResult (α : Type) := Option (Sum revision.closedRevision α)

/-- `AggregateStore` (part_000 lines 16–20); a nil `Store` field is
`none`. -/
structure AggregateStore (α : Type) where
  PeerID : Overpass.PeerID
  Local : Option (Ref → StoreResult α)
  Remote : Option (Ref → StoreResult α)

/-- `AggregateStore.GetRevision` (part_000 lines 37–47): delegate to the
matching configured store, otherwise return the closed placeholder. -/
def AggregateStore.GetRevision {α : Type} (s : AggregateStore α) (ref : Ref) :
    StoreResult α :=
  if ref.ID.Peer = s.PeerID then
    match s.Local with
    | some f => f ref
    | none => some (.inl (Closed ref.ID))
  else
    match s.Remote with
    | some f => f ref
    | none => some (.inl (Closed ref.ID))

end revisions

/-! ## Claim C8 -/

/-- **C8.** The aggregate store's `GetRevision` never returns a nil revision
(given that any configured delegate store does not): when the store matching
the ref's side — local for the local peer, remote otherwise — is not
configured, it returns the closed-session placeholder; and that placeholder
answers `Refresh`, `Get`, `GetMany` and `Update` with a `NotFound` error
carrying the session ID, while its `Close` returns nil. -/
theorem C8_closed_placeholder {α : Type} :
    (∀ (s : revisions.AggregateStore α) (ref : Ref),
      (∀ f, s.Local = some f → ∀ r, (f r).isSome = true) →
      (∀ f, s.Remote = some f → ∀ r, (f r).isSome = true) →
      (s.GetRevision ref).isSome = true) ∧
    (∀ (s : revisions.AggregateStore α) (ref : Ref),
      (if ref.ID.Peer = s.PeerID then s.Local = none else s.Remote = none) →
      s.GetRevision ref = some (.inl (revisions.Closed ref.ID))) ∧
    (∀ (r : revision.closedRevision) (key : String) (keys : List String)
        (attrs : List Attr),
      r.Refresh = (none, some (.notFound r.ref.ID)) ∧
      (r.Get key).2 = some (.notFound r.ref.ID) ∧
      r.GetMany keys = (none, some (.notFound r.ref.ID)) ∧
      r.Update attrs = (r, some (.notFound r.ref.ID)) ∧
      r.Close = none) := by
  refine ⟨?_, ?_, fun r key keys attrs => ⟨rfl, rfl, rfl, rfl, rfl⟩⟩
  · intro s ref hl hr
    unfold revisions.AggregateStore.GetRevision
    by_cases hp : ref.ID.Peer = s.PeerID
    · rw [if_pos hp]
      rcases hls : s.Local with _ | f
      · simp
      · exact hl f hls ref
    · rw [if_neg hp]
      rcases hrs : s.Remote with _ | f
      · simp
      · exact hr f hrs ref
  · intro s ref hcfg
    unfold revisions.AggregateStore.GetRevision
    by_cases hp : ref.ID.Peer = s.PeerID
    · rw [if_pos hp] at hcfg
      rw [if_pos hp, hcfg]
    · rw [if_neg hp] at hcfg
      rw [if_neg hp, hcfg]

/-- Witness for C8: a store with no delegates configured hands out the
closed placeholder for a concrete ref, and that placeholder's operations,
evaluated, give `NotFound` on reads and updates and nil on `Close`. -/
theorem C8_closed_placeholder_witness :
    (revisions.AggregateStore.GetRevision
        (α := Unit) ⟨⟨1, 0xBAD⟩, none, none⟩ ((⟨⟨2, 0xF00⟩, 3⟩ : SessionID).At 5)) =
      some (.inl (revisions.Closed ⟨⟨2, 0xF00⟩, 3⟩)) ∧
    (revisions.Closed ⟨⟨2, 0xF00⟩, 3⟩).Update [Set "a" "1"] =
      (revisions.Closed ⟨⟨2, 0xF00⟩, 3⟩, some (.notFound ⟨⟨2, 0xF00⟩, 3⟩)) ∧
    (revisions.Closed ⟨⟨2, 0xF00⟩, 3⟩).Close = none := by
  refine ⟨(C8_closed_placeholder (α := Unit)).2.1 ⟨⟨1, 0xBAD⟩, none, none⟩
      ((⟨⟨2, 0xF00⟩, 3⟩ : SessionID).At 5) (by rw [if_neg (by decide)]), ?_, ?_⟩
  · exact ((C8_closed_placeholder (α := Unit)).2.2
      (revisions.Closed ⟨⟨2, 0xF00⟩, 3⟩) "" [] [Set "a" "1"]).2.2.2.1
  · exact ((C8_closed_placeholder (α := Unit)).2.2
      (revisions.Closed ⟨⟨2, 0xF00⟩, 3⟩) "" [] [Set "a" "1"]).2.2.2.2

/-! ## The AMQP command response
(`src/src/rinqamqp/internal/commandamqp/response.go`)

Only the close-state machine matters for the claims: `respond` marks the
response closed before any publishing happens (line 135), unconditionally —
even in `replyNone` mode; the AMQP publish itself is external I/O with no
response state.  `Done`/`Error` panic with "responder is already closed"
when called on a closed response; `Fail` delegates to `Error`; `Close`
returns `false` without doing anything when already closed. -/

namespace commandamqp

inductive replyMode where
  | replyNone
  | replyCorrelated
  | replyUncorrelated
deriving DecidableEq, Repr

structure response where
  replyMode : replyMode
  isClosed : Bool
deriving DecidableEq, Repr

/-- `response.respond` (response.go line 135): sets `isClosed`. -/
def response.respond (r : response) : response :=
  { r with isClosed := true }

/-- `response.Done` (response.go lines 69–80); `.error` models the panic. -/
def response.Done (r : response) : Except String response :=
  if r.isClosed then .error "responder is already closed"
  else .ok r.respond

/-- `response.Error` (response.go lines 82–93). -/
def response.Error (r : response) : Except String response :=
  if r.isClosed then .error "responder is already closed"
  else .ok r.respond

/-- `response.Fail` (response.go lines 95–104) calls `r.Error`. -/
def response.Fail (r : response) : Except String response :=
  r.Error

/-- `response.Close` (response.go lines 106–119): returns `false` — with no
panic and no state change — when already closed. -/
def response.Close (r : response) : Bool × response :=
  if r.isClosed then (false, r)
  else (true, r.respond)

end commandamqp

/-! ## Claim C9 (corrected) -/

open commandamqp in
/-- **C9, counterexample.** The claim says calling any of `Done`, `Error`,
`Fail`, `Close` after the response is closed panics.  `Close` does not: on a
response already closed by a first `Close`, a second `Close` completes
normally, returning `false` and leaving the state unchanged. -/
theorem C9_close_after_close_counterexample :
    response.Close (response.Close ⟨.replyCorrelated, false⟩).2 =
      (false, (response.Close ⟨.replyCorrelated, false⟩).2) ∧
    (response.Close ⟨.replyCorrelated, false⟩).2.isClosed = true := by
  decide

open commandamqp in
/-- **C9, amended.** `Done`, `Error`, `Fail` and `Close` are mutually
exclusive: the first of them to run marks the response closed.  After that,
`Done`, `Error` and `Fail` panic ("responder is already closed"), while
`Close` is a no-op that returns `false` instead of panicking. -/
theorem C9_response_close_once (r : response) :
    (r.isClosed = false →
      r.Done = .ok { r with isClosed := true } ∧
      r.Error = .ok { r with isClosed := true } ∧
      r.Fail = .ok { r with isClosed := true } ∧
      r.Close = (true, { r with isClosed := true })) ∧
    (r.isClosed = true →
      r.Done = .error "responder is already closed" ∧
      r.Error = .error "responder is already closed" ∧
      r.Fail = .error "responder is already closed" ∧
      r.Close = (false, r)) := by
  constructor
  · intro h
    simp [response.Done, response.Error, response.Fail, response.Close, response.respond, h]
  · intro h
    simp [response.Done, response.Error, response.Fail, response.Close, h]

open commandamqp in
/-- Witness for the amended C9 at concrete responses, open and closed. -/
theorem C9_response_close_once_witness :
    (response.Done ⟨.replyCorrelated, false⟩ = .ok ⟨.replyCorrelated, true⟩ ∧
      response.Error ⟨.replyCorrelated, false⟩ = .ok ⟨.replyCorrelated, true⟩ ∧
      response.Fail ⟨.replyCorrelated, false⟩ = .ok ⟨.replyCorrelated, true⟩ ∧
      response.Close ⟨.replyCorrelated, false⟩ = (true, ⟨.replyCorrelated, true⟩)) ∧
    (response.Done ⟨.replyNone, true⟩ = .error "responder is already closed" ∧
      response.Error ⟨.replyNone, true⟩ = .error "responder is already closed" ∧
      response.Fail ⟨.replyNone, true⟩ = .error "responder is already closed" ∧
      response.Close ⟨.replyNone, true⟩ = (false, ⟨.replyNone, true⟩)) :=
  ⟨(C9_response_close_once ⟨.replyCorrelated, false⟩).1 rfl,
   (C9_response_close_once ⟨.replyNone, true⟩).2 rfl⟩

/-! ## The reference-counted payload (`src/unnamed/part_003`)

The `payloadData` cell is shared by every handle cloned from one payload.  A
handle is modelled by whether its `data` pointer is non-nil (`attached`),
and the shared cell by its reference count and whether its `buffer` is
non-nil; the lazily-populated value/bytes themselves carry no state relevant
to the ownership claim. -/

namespace payload

structure payloadData where
  refCount : Nat
  hasBuffer : Bool
deriving DecidableEq, Repr

/-- `Payload.Clone` (part_003 lines 73–84): a nil handle clones to nil with
the cell untouched; otherwise the shared count is incremented and the new
handle points at the same cell. -/
def Clone (attached : Bool) (d : payloadData) : Bool × payloadData :=
  if attached then (true, { d with refCount := d.refCount + 1 })
  else (false, d)

/-- `Payload.Close` (part_003 lines 158–174): a nil or already-closed handle
is a no-op; otherwise the handle detaches (`p.data = nil`), the shared count
is decremented, and the buffer is returned to the pool exactly when the
count reaches 0 and a buffer exists.  The third component reports whether
`bufferpool.Put` ran. -/
def Close (attached : Bool) (d : payloadData) : Bool × payloadData × Bool :=
  if attached then
    (false, { d with refCount := d.refCount - 1 },
      decide (d.refCount - 1 = 0) && d.hasBuffer)
  else
    (false, d, false)

end payload

/-! ## Claim C10 -/

open payload in
/-- **C10.** Payload ownership obeys reference counting: `Clone` on a
non-nil handle increments the shared count by exactly 1 and returns a handle
attached to the same cell; `Close` on a non-closed handle (which, holding a
reference, accounts for `refCount ≥ 1`) detaches it, decrements the count by
exactly 1, and returns the buffer to the pool exactly when the count reaches
0 (and a buffer exists to return); `Close` on a nil or already-closed handle
is a no-op that does not decrement. -/
theorem C10_payload_refcounting :
    (∀ d : payloadData, Clone true d = (true, { d with refCount := d.refCount + 1 })) ∧
    (∀ d : payloadData, 1 ≤ d.refCount →
      (Close true d).1 = false ∧
      (Close true d).2.1.refCount + 1 = d.refCount ∧
      (Close true d).2.1.hasBuffer = d.hasBuffer ∧
      ((Close true d).2.2 = true ↔
        ((Close true d).2.1.refCount = 0 ∧ d.hasBuffer = true))) ∧
    (∀ d : payloadData, Close false d = (false, d, false)) := by
  refine ⟨fun d => rfl, fun d h => ?_, fun d => rfl⟩
  refine ⟨rfl, by simp [Close]; omega, rfl, ?_⟩
  simp [Close]

open payload in
/-- Witness for C10: cloning a two-reference payload gives three references;
closing a two-reference handle leaves one; the pool-return test at the last
reference holds; and closing a detached handle is a no-op. -/
theorem C10_payload_refcounting_witness :
    Clone true ⟨2, true⟩ = (true, ⟨3, true⟩) ∧
    (Close true ⟨2, true⟩).2.1.refCount + 1 = 2 ∧
    ((Close true ⟨1, true⟩).2.2 = true ↔
      ((Close true ⟨1, true⟩).2.1.refCount = 0 ∧ true = true)) ∧
    Close false ⟨5, true⟩ = (false, ⟨5, true⟩, false) :=
  ⟨C10_payload_refcounting.1 ⟨2, true⟩,
   (C10_payload_refcounting.2.1 ⟨2, true⟩ (by decide)).2.1,
   (C10_payload_refcounting.2.1 ⟨1, true⟩ (by decide)).2.2.2,
   C10_payload_refcounting.2.2 ⟨5, true⟩⟩

end Overpass
